import Mathlib

/-!
Shallow embedding of the `ahvf` crate's virtual-machine resource tracker
(`src/virtual_machine.rs`), its error domain (`src/err.rs`) and the vCPU
exit decoding (`src/vcpu.rs`).

Modelling conventions:
* Rust `u64`/`usize` values (handles, counters, addresses, sizes) are
  modelled as `Nat`.  The handle counters are `u64` in the source and
  incremented with `+= 1`; an overflow would need `2^64` issuances and
  panics in checked builds, so the unbounded `Nat` model is faithful for
  every realisable execution.
* The native Hypervisor framework is external to the crate.  Every
  tracker operation that performs a native call takes the native call's
  status code (`hv_return_t`, an `Int`) as an oracle argument and
  records the call it issued in a `NativeCall` trace, so that theorems
  can speak about which native calls were made and in which order.
* Host pointers (`base_address`) are abstracted away: an allocation's
  backing region is modelled by the list of its bytes (`buffer`), which
  `alloc_zeroed` fills with zeros.
* Rust panics (`unwrap`, `expect`) are modelled with `Option`: `none`
  is a panic/abort of the process.
-/

/-- The size of a page (`PAGE_SIZE` in `virtual_machine.rs`). -/
def PAGE_SIZE : Nat := 0x10000

/-- Native memory-flag constant `HV_MEMORY_READ` from the generated
Hypervisor framework bindings. -/
def HV_MEMORY_READ : Nat := 1

/-- Native memory-flag constant `HV_MEMORY_WRITE` from the generated
Hypervisor framework bindings. -/
def HV_MEMORY_WRITE : Nat := 2

/-- Native memory-flag constant `HV_MEMORY_EXEC` from the generated
Hypervisor framework bindings. -/
def HV_MEMORY_EXEC : Nat := 4

/-- Native status code `HV_SUCCESS` (the designated success value of
`hv_return_t`). -/
def HV_SUCCESS : Int := 0

/-- Native status code `HV_ERROR` (`0xfae94001` as an `i32`). -/
def HV_ERROR : Int := (0xfae94001 : Nat) - 2 ^ 32

/-- Native status code `HV_BUSY` (`0xfae94002` as an `i32`). -/
def HV_BUSY : Int := (0xfae94002 : Nat) - 2 ^ 32

/-- Native status code `HV_BAD_ARGUMENT` (`0xfae94003` as an `i32`). -/
def HV_BAD_ARGUMENT : Int := (0xfae94003 : Nat) - 2 ^ 32

/-- Native status code `HV_ILLEGAL_GUEST_STATE` (`0xfae94004` as an `i32`). -/
def HV_ILLEGAL_GUEST_STATE : Int := (0xfae94004 : Nat) - 2 ^ 32

/-- Native status code `HV_NO_RESOURCES` (`0xfae94005` as an `i32`). -/
def HV_NO_RESOURCES : Int := (0xfae94005 : Nat) - 2 ^ 32

/-- Native status code `HV_NO_DEVICE` (`0xfae94006` as an `i32`). -/
def HV_NO_DEVICE : Int := (0xfae94006 : Nat) - 2 ^ 32

/-- Native status code `HV_DENIED` (`0xfae94007` as an `i32`). -/
def HV_DENIED : Int := (0xfae94007 : Nat) - 2 ^ 32

/-- Native status code `HV_UNSUPPORTED` (`0xfae9400f` as an `i32`). -/
def HV_UNSUPPORTED : Int := (0xfae9400f : Nat) - 2 ^ 32

/-- The closed error taxonomy `HypervisorError` of `src/err.rs`. -/
inductive HypervisorError where
  /-- A generic error was returned by the Hypervisor. -/
  | Error : HypervisorError
  /-- The Hypervisor is busy. -/
  | Busy : HypervisorError
  /-- A bad argument was received. -/
  | BadArgument : HypervisorError
  /-- The guest is in an illegal state. -/
  | IllegalGuestState : HypervisorError
  /-- No resources available. -/
  | NoResources : HypervisorError
  /-- No device available. -/
  | NoDevice : HypervisorError
  /-- Access was denied. -/
  | Denied : HypervisorError
  /-- Operation unsupported. -/
  | Unsupported : HypervisorError
  /-- Invalid handle sent (synthesized locally by the trackers). -/
  | InvalidHandle : HypervisorError
  /-- The given allocation handle is still mapped (synthesized locally). -/
  | AllocationStillMapped : HypervisorError
  /-- A memory address was misaligned (synthesized locally). -/
  | MisalignedAddress : HypervisorError
  /-- An unknown error code was returned by the native layer. -/
  | Unknown : Int → HypervisorError
deriving DecidableEq, Repr

/-- `impl From<hv_return_t> for HypervisorError` of `src/err.rs`, restricted
to non-success codes.  The source panics on `HV_SUCCESS`; that arm is
unreachable from `convert_hv_return`, which is the only caller. -/
def HypervisorError.from_hv_return (value : Int) : HypervisorError :=
  if value = HV_ERROR then .Error
  else if value = HV_BUSY then .Busy
  else if value = HV_BAD_ARGUMENT then .BadArgument
  else if value = HV_ILLEGAL_GUEST_STATE then .IllegalGuestState
  else if value = HV_NO_RESOURCES then .NoResources
  else if value = HV_NO_DEVICE then .NoDevice
  else if value = HV_DENIED then .Denied
  else if value = HV_UNSUPPORTED then .Unsupported
  else .Unknown value

/-- `convert_hv_return` of `src/err.rs`: the designated success value maps
to `Ok(())`, everything else maps through the error taxonomy. -/
def convert_hv_return (value : Int) : Except HypervisorError Unit :=
  if value = HV_SUCCESS then .ok () else .error (HypervisorError.from_hv_return value)

/-- `MemoryPermission` of `virtual_machine.rs`: three independent boolean
capabilities. -/
structure MemoryPermission where
  /-- Read. -/
  read : Bool
  /-- Write. -/
  write : Bool
  /-- Execute. -/
  execute : Bool
deriving DecidableEq, Repr

/-- `MemoryPermission::READ`. -/
def MemoryPermission.READ : MemoryPermission := ⟨true, false, false⟩

/-- `MemoryPermission::READ_WRITE`. -/
def MemoryPermission.READ_WRITE : MemoryPermission := ⟨true, true, false⟩

/-- `MemoryPermission::EXECUTE`. -/
def MemoryPermission.EXECUTE : MemoryPermission := ⟨false, false, true⟩

/-- `impl From<MemoryPermission> for hv_memory_flags_t` of
`virtual_machine.rs`: or-together the native flag bits. -/
def hv_memory_flags_t_from (value : MemoryPermission) : Nat :=
  let result := 0
  let result := if value.read then result ||| HV_MEMORY_READ else result
  let result := if value.write then result ||| HV_MEMORY_WRITE else result
  let result := if value.execute then result ||| HV_MEMORY_EXEC else result
  result

/-- `isize::MAX` on the 64-bit target. -/
def isize_MAX : Nat := 2 ^ 63 - 1

/-- An allocation layout (`core::alloc::Layout`): a size and an alignment. -/
structure Layout where
  /-- The size in bytes. -/
  size : Nat
  /-- The alignment in bytes. -/
  align : Nat
deriving DecidableEq, Repr

/-- Whether `n` is a power of two, as `usize::is_power_of_two`. -/
def is_power_of_two (n : Nat) : Bool := 0 < n && n &&& (n - 1) == 0

/-- `Layout::from_size_align`: fails (`none`) when the alignment is not a
power of two or when `size`, once rounded up to the alignment, would
overflow `isize`. -/
def Layout.from_size_align (size align : Nat) : Option Layout :=
  if !is_power_of_two align then none
  else if size > isize_MAX - (align - 1) then none
  else some ⟨size, align⟩

/-- `Layout::pad_to_align`: round the size up to the next multiple of the
alignment. -/
def Layout.pad_to_align (l : Layout) : Layout :=
  ⟨(l.size + l.align - 1) / l.align * l.align, l.align⟩

/-- `VirtualMachineAllocation` of `virtual_machine.rs`.  The raw
`base_address` pointer is abstracted: `buffer` is the content of the
backing region (its length is the layout's padded size). -/
structure VirtualMachineAllocation where
  /-- The bytes of the backing region (stands for the region behind
  `base_address`). -/
  buffer : List Nat
  /-- The layout of the allocation. -/
  layout : Layout
  /-- Associated handle (`AllocationHandle`). -/
  handle : Nat
deriving DecidableEq, Repr

/-- `VirtualMachineAllocation::new`: build the padded page-aligned layout
(`none` models the `unwrap` panic on layout overflow) and allocate a
zero-filled buffer of the padded size. -/
def VirtualMachineAllocation.new (size : Nat) : Option VirtualMachineAllocation :=
  (Layout.from_size_align size PAGE_SIZE).map fun l =>
    let layout := l.pad_to_align
    { buffer := List.replicate layout.size 0
      layout := layout
      handle := 0 }

/-- `VirtualMachineMapping` of `virtual_machine.rs`. -/
structure VirtualMachineMapping where
  /-- The allocation handle associated to this mapping. -/
  allocation_handle : Nat
  /-- The handle associated to this mapping (`MappingHandle`). -/
  mapping_handle : Nat
  /-- The guest address of the region (`hv_ipa_t`). -/
  address : Nat
  /-- The size of the region. -/
  size : Nat
  /-- The memory permission associated with the region. -/
  permission : MemoryPermission
deriving DecidableEq, Repr

/-- The `Counter` utility of `virtual_machine.rs`. -/
structure Counter where
  /-- The current value. -/
  val : Nat
deriving DecidableEq, Repr

/-- `Counter::get_next_value`: increment, then return the new value. -/
def Counter.get_next_value (c : Counter) : Nat × Counter :=
  let v := c.val + 1
  (v, ⟨v⟩)

/-- The tracker state of `VirtualMachine` in `virtual_machine.rs`. -/
structure VirtualMachine where
  /-- Counter used for allocation identifiers. -/
  allocation_counter : Counter
  /-- Counter used for mapping identifiers. -/
  mapping_counter : Counter
  /-- List of all allocations. -/
  allocation_list : List VirtualMachineAllocation
  /-- List of all mappings. -/
  mapping_list : List VirtualMachineMapping
deriving DecidableEq, Repr

/-- The tracker state produced by `VirtualMachine::new` (on native create
success): both counters at zero, both lists empty. -/
def VirtualMachine.initial : VirtualMachine :=
  { allocation_counter := ⟨0⟩
    mapping_counter := ⟨0⟩
    allocation_list := []
    mapping_list := [] }

/-- A native Hypervisor call issued by the tracker, with the arguments the
source passes (host pointers abstracted away). -/
inductive NativeCall where
  /-- `hv_vm_map(base, guest_address, size, flags)` (host base pointer
  abstracted). -/
  | vmMap (guest_address : Nat) (size : Nat) (flags : Nat) : NativeCall
  /-- `hv_vm_unmap(address, size)`. -/
  | vmUnmap (address : Nat) (size : Nat) : NativeCall
  /-- `hv_vm_protect(address, size, flags)`. -/
  | vmProtect (address : Nat) (size : Nat) (flags : Nat) : NativeCall
  /-- `hv_vm_destroy()`. -/
  | vmDestroy : NativeCall
deriving DecidableEq, Repr

/-- Search a list together with the index of the hit, as the
`iter().enumerate()` loops of `virtual_machine.rs` do. -/
def findWithIndex (p : α → Bool) : List α → Option (Nat × α)
  | [] => none
  | x :: xs =>
    if p x then some (0, x)
    else (findWithIndex p xs).map fun (i, y) => (i + 1, y)

/-- `VirtualMachine::find_allocation_by_handle`: first allocation entry
with the given handle, with its index; `InvalidHandle` if none. -/
def VirtualMachine.find_allocation_by_handle (vm : VirtualMachine) (handle : Nat) :
    Except HypervisorError (Nat × VirtualMachineAllocation) :=
  match findWithIndex (fun entry => entry.handle == handle) vm.allocation_list with
  | some hit => .ok hit
  | none => .error .InvalidHandle

/-- `VirtualMachine::find_mapping_by_handle`: first mapping entry with the
given mapping handle, with its index; `InvalidHandle` if none. -/
def VirtualMachine.find_mapping_by_handle (vm : VirtualMachine) (handle : Nat) :
    Except HypervisorError (Nat × VirtualMachineMapping) :=
  match findWithIndex (fun entry => entry.mapping_handle == handle) vm.mapping_list with
  | some hit => .ok hit
  | none => .error .InvalidHandle

/-- `VirtualMachine::is_allocation_mapped`: whether some live mapping
references the allocation handle. -/
def VirtualMachine.is_allocation_mapped (vm : VirtualMachine) (handle : Nat) : Bool :=
  vm.mapping_list.any fun entry => entry.allocation_handle == handle

/-- `VirtualMachine::allocate`: build a fresh allocation (`none` models
the layout-overflow panic), stamp it with the next counter value and
record it. -/
def VirtualMachine.allocate (vm : VirtualMachine) (size : Nat) :
    Option (Nat × VirtualMachine) :=
  (VirtualMachineAllocation.new size).map fun allocation =>
    let (handle, counter) := vm.allocation_counter.get_next_value
    let allocation := { allocation with handle := handle }
    (handle,
      { vm with
        allocation_counter := counter
        allocation_list := vm.allocation_list ++ [allocation] })

/-- `VirtualMachine::get_allocation_slice`: the backing region's bytes
(the source returns a slice of `layout.size()` bytes from
`base_address`; in the model that region is `buffer`). -/
def VirtualMachine.get_allocation_slice (vm : VirtualMachine) (allocation_handle : Nat) :
    Except HypervisorError (List Nat) :=
  (vm.find_allocation_by_handle allocation_handle).map fun (_, allocation) =>
    allocation.buffer

/-- `VirtualMachine::allocate_from`: allocate `source.length` bytes and
copy `source` over the front of the fresh buffer.  The defensive
`NoResources` arm fires when the fresh handle cannot be looked up. -/
def VirtualMachine.allocate_from (vm : VirtualMachine) (source : List Nat) :
    Option (Except HypervisorError Nat × VirtualMachine) :=
  (vm.allocate source.length).map fun (allocation_handle, vm1) =>
    match vm1.find_allocation_by_handle allocation_handle with
    | .ok (index, allocation) =>
      let allocation :=
        { allocation with buffer := source ++ allocation.buffer.drop source.length }
      (.ok allocation_handle,
        { vm1 with allocation_list := vm1.allocation_list.set index allocation })
    | .error _ => (.error .NoResources, vm1)

/-- `VirtualMachine::deallocate`: fail with `InvalidHandle` if the handle
is unknown, with `AllocationStillMapped` if some live mapping references
it, otherwise remove the entry (the buffer is released by the entry's
`Drop`). -/
def VirtualMachine.deallocate (vm : VirtualMachine) (allocation_handle : Nat) :
    Except HypervisorError Unit × VirtualMachine :=
  match vm.find_allocation_by_handle allocation_handle with
  | .error e => (.error e, vm)
  | .ok (index, _) =>
    if vm.is_allocation_mapped allocation_handle then
      (.error .AllocationStillMapped, vm)
    else
      (.ok (), { vm with allocation_list := vm.allocation_list.eraseIdx index })

/-- `VirtualMachine::map`.  `ret` is the status the native `hv_vm_map`
call reports; the returned trace lists the native calls issued. -/
def VirtualMachine.map (vm : VirtualMachine) (allocation_handle : Nat)
    (guest_address : Nat) (permission : MemoryPermission) (ret : Int) :
    Except HypervisorError Nat × VirtualMachine × List NativeCall :=
  match vm.find_allocation_by_handle allocation_handle with
  | .error e => (.error e, vm, [])
  | .ok (_, allocation) =>
    let allocation_size := allocation.layout.size
    if guest_address % PAGE_SIZE ≠ 0 then
      (.error .MisalignedAddress, vm, [])
    else
      let call := NativeCall.vmMap guest_address allocation_size
        (hv_memory_flags_t_from permission)
      match convert_hv_return ret with
      | .error e => (.error e, vm, [call])
      | .ok _ =>
        let (mapping_handle, counter) := vm.mapping_counter.get_next_value
        let virtual_mapping : VirtualMachineMapping :=
          { allocation_handle := allocation_handle
            mapping_handle := mapping_handle
            address := guest_address
            size := allocation_size
            permission := permission }
        (.ok mapping_handle,
          { vm with
            mapping_counter := counter
            mapping_list := vm.mapping_list ++ [virtual_mapping] },
          [call])

/-- `VirtualMachine::unmap`.  `ret` is the status the native
`hv_vm_unmap` call reports; the record is removed only after the native
call succeeds. -/
def VirtualMachine.unmap (vm : VirtualMachine) (mapping_handle : Nat) (ret : Int) :
    Except HypervisorError Unit × VirtualMachine × List NativeCall :=
  match vm.find_mapping_by_handle mapping_handle with
  | .error e => (.error e, vm, [])
  | .ok (index, mapping) =>
    let call := NativeCall.vmUnmap mapping.address mapping.size
    match convert_hv_return ret with
    | .error e => (.error e, vm, [call])
    | .ok _ =>
      (.ok (), { vm with mapping_list := vm.mapping_list.eraseIdx index }, [call])

/-- `VirtualMachine::reprotect`.  `ret` is the status the native
`hv_vm_protect` call reports; the stored permission is updated only after
the native call succeeds.  The source re-fetches the entry at `index`
with `get_mut(index).expect(..)`; since `index` comes from the lookup it
is always in range, and the entry there is `mapping`, so the update is
`set index` of `mapping` with the new permission. -/
def VirtualMachine.reprotect (vm : VirtualMachine) (mapping_handle : Nat)
    (permission : MemoryPermission) (ret : Int) :
    Except HypervisorError Unit × VirtualMachine × List NativeCall :=
  match vm.find_mapping_by_handle mapping_handle with
  | .error e => (.error e, vm, [])
  | .ok (index, mapping) =>
    let call := NativeCall.vmProtect mapping.address mapping.size
      (hv_memory_flags_t_from permission)
    match convert_hv_return ret with
    | .error e => (.error e, vm, [call])
    | .ok _ =>
      (.ok (),
        { vm with
          mapping_list := vm.mapping_list.set index { mapping with permission := permission } },
        [call])

/-- `VirtualMachine::get_mapping_info`. -/
def VirtualMachine.get_mapping_info (vm : VirtualMachine) (mapping_handle : Nat) :
    Except HypervisorError VirtualMachineMapping :=
  (vm.find_mapping_by_handle mapping_handle).map fun (_, value) => value

/-- `VirtualMachine::get_all_mapping_infos`: a clone of the mapping list. -/
def VirtualMachine.get_all_mapping_infos (vm : VirtualMachine) : List VirtualMachineMapping :=
  vm.mapping_list

/-- `VirtualMachine::get_allocation_slice_mut`: in the source this is the
same lookup as `get_allocation_slice` but returning a mutable view; the
byte-list model collapses both views to the region's bytes. -/
def VirtualMachine.get_allocation_slice_mut (vm : VirtualMachine) (allocation_handle : Nat) :
    Except HypervisorError (List Nat) :=
  (vm.find_allocation_by_handle allocation_handle).map fun (_, allocation) =>
    allocation.buffer

/-- The per-mapping loop of `impl Drop for VirtualMachine`: iterate over a
snapshot of the mapping list, `unmap` each recorded mapping and panic
(`none`) on the first failure.  `rets` is the oracle of native
`hv_vm_unmap` statuses, one per iteration. -/
def VirtualMachine.drop_unmap_loop (vm : VirtualMachine)
    (snapshot : List VirtualMachineMapping) (rets : Nat → Int) :
    Option VirtualMachine × List NativeCall :=
  match snapshot with
  | [] => (some vm, [])
  | mapping :: rest =>
    match vm.unmap mapping.mapping_handle (rets 0) with
    | (.ok _, vm1, calls) =>
      let (res, more) := vm1.drop_unmap_loop rest (fun i => rets (i + 1))
      (res, calls ++ more)
    | (.error _, _, calls) => (none, calls)

/-- `impl Drop for VirtualMachine`: unmap every mapping of the
`get_all_mapping_infos` snapshot (panicking on failure), then issue the
native `hv_vm_destroy` call and panic if it fails.  `none` models the
panic; the trace lists the native calls issued in order. -/
def VirtualMachine.drop (vm : VirtualMachine) (unmapRets : Nat → Int) (destroyRet : Int) :
    Option Unit × List NativeCall :=
  match vm.drop_unmap_loop vm.get_all_mapping_infos unmapRets with
  | (none, calls) => (none, calls)
  | (some _, calls) =>
    let calls := calls ++ [NativeCall.vmDestroy]
    match convert_hv_return destroyRet with
    | .ok _ => (some (), calls)
    | .error _ => (none, calls)

/-- Native exit-reason code `HV_EXIT_REASON_CANCELED` from the generated
bindings (first member of the `hv_exit_reason_t` enum). -/
def HV_EXIT_REASON_CANCELED : Nat := 0

/-- Native exit-reason code `HV_EXIT_REASON_EXCEPTION`. -/
def HV_EXIT_REASON_EXCEPTION : Nat := 1

/-- Native exit-reason code `HV_EXIT_REASON_VTIMER_ACTIVATED`. -/
def HV_EXIT_REASON_VTIMER_ACTIVATED : Nat := 2

/-- Native exit-reason code `HV_EXIT_REASON_UNKNOWN`. -/
def HV_EXIT_REASON_UNKNOWN : Nat := 3

/-- The native exception detail record `hv_vcpu_exit_exception_t`
(passed through opaquely by the decoder). -/
structure hv_vcpu_exit_exception_t where
  /-- Exception syndrome (ESR). -/
  syndrome : Nat
  /-- Faulting virtual address. -/
  virtual_address : Nat
  /-- Faulting physical address. -/
  physical_address : Nat
deriving DecidableEq, Repr

/-- The native exit record `hv_vcpu_exit_t`: a reason code plus the
exception detail. -/
structure hv_vcpu_exit_t where
  /-- The native reason code. -/
  reason : Nat
  /-- The exception detail. -/
  exception : hv_vcpu_exit_exception_t
deriving DecidableEq, Repr

/-- `VirtualCpuExitReason` of `src/vcpu.rs`. -/
inductive VirtualCpuExitReason where
  /-- Asynchronous exit. -/
  | Cancelled : VirtualCpuExitReason
  /-- Guest exception, carrying the native exception detail. -/
  | Exception (exception : hv_vcpu_exit_exception_t) : VirtualCpuExitReason
  /-- Virtual Timer enters the pending state. -/
  | VTimerActivated : VirtualCpuExitReason
  /-- Unexpected exit. -/
  | Unknown : VirtualCpuExitReason
deriving DecidableEq, Repr

/-- `impl From<hv_vcpu_exit_t> for VirtualCpuExitReason` of `src/vcpu.rs`:
match on the reason code, with a catch-all arm mapping every unexpected
code to `Unknown`. -/
def VirtualCpuExitReason.from_exit (value : hv_vcpu_exit_t) : VirtualCpuExitReason :=
  if value.reason = HV_EXIT_REASON_CANCELED then .Cancelled
  else if value.reason = HV_EXIT_REASON_EXCEPTION then .Exception value.exception
  else if value.reason = HV_EXIT_REASON_VTIMER_ACTIVATED then .VTimerActivated
  else if value.reason = HV_EXIT_REASON_UNKNOWN then .Unknown
  else .Unknown

/-- `VirtualCpu::run`: convert the native `hv_vcpu_run` status `ret`, and
on success decode the exit record the native layer populated. -/
def VirtualCpu.run (ret : Int) (vcpu_exit : hv_vcpu_exit_t) :
    Except HypervisorError VirtualCpuExitReason :=
  match convert_hv_return ret with
  | .error e => .error e
  | .ok _ => .ok (VirtualCpuExitReason.from_exit vcpu_exit)

/-- Well-formedness of a tracker state: every recorded handle was issued
by the respective counter (hence is at most its current value) and
handles are duplicate-free.  `VirtualMachine.initial` satisfies it and
every tracker operation preserves it (`execOp_WF`). -/
def VirtualMachine.WF (vm : VirtualMachine) : Prop :=
  (∀ a ∈ vm.allocation_list, a.handle ≤ vm.allocation_counter.val) ∧
  (vm.allocation_list.map (fun a => a.handle)).Nodup ∧
  (∀ m ∈ vm.mapping_list, m.mapping_handle ≤ vm.mapping_counter.val) ∧
  (vm.mapping_list.map (fun m => m.mapping_handle)).Nodup

instance (vm : VirtualMachine) : Decidable vm.WF := by
  unfold VirtualMachine.WF; infer_instance

/-- One tracker operation of the `VirtualMachine` interface, with the
native status oracles it needs. -/
inductive TrackerOp where
  /-- `allocate(size)`. -/
  | allocate (size : Nat) : TrackerOp
  /-- `allocate_from(source)`. -/
  | allocate_from (source : List Nat) : TrackerOp
  /-- `deallocate(handle)`. -/
  | deallocate (handle : Nat) : TrackerOp
  /-- `map(handle, guest_address, permission)` with native status `ret`. -/
  | map (handle : Nat) (guest_address : Nat) (permission : MemoryPermission) (ret : Int) : TrackerOp
  /-- `unmap(handle)` with native status `ret`. -/
  | unmap (handle : Nat) (ret : Int) : TrackerOp
  /-- `reprotect(handle, permission)` with native status `ret`. -/
  | reprotect (handle : Nat) (permission : MemoryPermission) (ret : Int) : TrackerOp

/-- Run one tracker operation; `none` is a panic.  Besides the next state
it returns the allocation handles and the mapping handles the operation
returned to the caller. -/
def execOp (vm : VirtualMachine) : TrackerOp → Option (VirtualMachine × List Nat × List Nat)
  | .allocate size =>
    (vm.allocate size).map fun (h, vm1) => (vm1, [h], [])
  | .allocate_from source =>
    (vm.allocate_from source).map fun (res, vm1) =>
      match res with
      | .ok h => (vm1, [h], [])
      | .error _ => (vm1, [], [])
  | .deallocate h => some ((vm.deallocate h).2, [], [])
  | .map h addr perm ret =>
    some ((vm.map h addr perm ret).2.1, [],
      match (vm.map h addr perm ret).1 with
      | .ok m => [m]
      | .error _ => [])
  | .unmap h ret => some ((vm.unmap h ret).2.1, [], [])
  | .reprotect h perm ret => some ((vm.reprotect h perm ret).2.1, [], [])

/-- Run a sequence of tracker operations from a state, accumulating the
returned allocation handles and mapping handles in order. -/
def execOps (vm : VirtualMachine) : List TrackerOp → Option (VirtualMachine × List Nat × List Nat)
  | [] => some (vm, [], [])
  | op :: ops =>
    (execOp vm op).bind fun (vm1, as1, ms1) =>
      (execOps vm1 ops).map fun (vm2, as2, ms2) => (vm2, as1 ++ as2, ms1 ++ ms2)

/-! Helper lemmas about `findWithIndex` and list surgery. -/

theorem findWithIndex_eq_none {α : Type} {p : α → Bool} {l : List α} :
    findWithIndex p l = none ↔ ∀ x ∈ l, p x = false := by
  induction l with
  | nil => simp [findWithIndex]
  | cons a t ih =>
    by_cases hp : p a
    · simp [findWithIndex, hp]
    · have hpa : p a = false := Bool.eq_false_iff.mpr hp
      simp only [findWithIndex, hpa, Bool.false_eq_true, if_false, Option.map_eq_none', ih,
        List.mem_cons]
      constructor
      · intro hall x hx
        rcases hx with hx | hx
        · subst hx; exact hpa
        · exact hall x hx
      · intro hall x hx
        exact hall x (Or.inr hx)

theorem findWithIndex_eq_some {α : Type} {p : α → Bool} {l : List α} {i : Nat} {x : α}
    (h : findWithIndex p l = some (i, x)) : l[i]? = some x ∧ p x = true := by
  induction l generalizing i with
  | nil => simp [findWithIndex] at h
  | cons a t ih =>
    by_cases hp : p a
    · simp only [findWithIndex, hp, if_true, Option.some_inj, Prod.mk.injEq] at h
      obtain ⟨hi, hx⟩ := h
      subst hi; subst hx
      exact ⟨by simp, hp⟩
    · simp only [findWithIndex, hp, if_false] at h
      obtain ⟨⟨j, y⟩, hjy, heq⟩ := Option.map_eq_some'.mp h
      obtain ⟨hi, hx⟩ := Prod.mk.injEq .. ▸ heq
      subst hx
      obtain ⟨hget, hpy⟩ := ih hjy
      subst hi
      exact ⟨by simpa using hget, hpy⟩

theorem findWithIndex_cons_miss {α : Type} {p : α → Bool} {a : α} (t : List α)
    (h : p a = false) :
    findWithIndex p (a :: t) = (findWithIndex p t).map fun jy => (jy.1 + 1, jy.2) := by
  simp [findWithIndex, h]

theorem findWithIndex_append_nohit {α : Type} {p : α → Bool} {l1 : List α}
    (h : ∀ x ∈ l1, p x = false) (l2 : List α) :
    findWithIndex p (l1 ++ l2) =
      (findWithIndex p l2).map fun jy => (jy.1 + l1.length, jy.2) := by
  induction l1 with
  | nil =>
    simp only [List.nil_append, List.length_nil]
    cases hfind : findWithIndex p l2 with
    | none => simp
    | some jy => simp
  | cons a t ih =>
    have hpa : p a = false := h a (List.mem_cons_self a t)
    have ht : ∀ x ∈ t, p x = false := fun x hx => h x (List.mem_cons_of_mem a hx)
    rw [List.cons_append, findWithIndex_cons_miss _ hpa, ih ht]
    cases hfind : findWithIndex p l2 with
    | none => simp
    | some jy => simp [Nat.add_assoc]

theorem findWithIndex_cons_hit {α : Type} {p : α → Bool} {a : α} (t : List α)
    (h : p a = true) : findWithIndex p (a :: t) = some (0, a) := by
  simp [findWithIndex, h]

theorem eraseIdx_append_len {α : Type} (l1 : List α) (r : α) (l2 : List α) :
    (l1 ++ r :: l2).eraseIdx l1.length = l1 ++ l2 := by
  induction l1 with
  | nil => rfl
  | cons a t ih => simp [List.eraseIdx, ih]

theorem nodup_map_eraseIdx {α β : Type} {f : α → β} {l : List α} {i : Nat} {x : α}
    (hnd : (l.map f).Nodup) (hget : l[i]? = some x) :
    ∀ y ∈ l.eraseIdx i, f y ≠ f x := by
  induction l generalizing i with
  | nil => simp at hget
  | cons a t ih =>
    cases i with
    | zero =>
      simp only [List.getElem?_cons_zero, Option.some_inj] at hget
      subst hget
      simp only [List.eraseIdx]
      intro y hy
      have : f y ∈ t.map f := List.mem_map_of_mem f hy
      intro hcontra
      exact (List.nodup_cons.mp hnd).1 (hcontra ▸ this)
    | succ j =>
      simp only [List.getElem?_cons_succ] at hget
      simp only [List.eraseIdx]
      intro y hy
      rcases List.mem_cons.mp hy with hy | hy
      · subst hy
        have hxmem : x ∈ t := List.getElem?_mem hget
        have : f x ∈ t.map f := List.mem_map_of_mem f hxmem
        intro hcontra
        exact (List.nodup_cons.mp hnd).1 (hcontra ▸ this)
      · exact ih (List.nodup_cons.mp hnd).2 hget y hy

/-! Characterisations of the handle lookups. -/

theorem find_allocation_not_live {vm : VirtualMachine} {h : Nat}
    (hnl : ∀ a ∈ vm.allocation_list, a.handle ≠ h) :
    vm.find_allocation_by_handle h = .error .InvalidHandle := by
  have hfw : findWithIndex (fun entry => entry.handle == h) vm.allocation_list = none :=
    findWithIndex_eq_none.mpr fun x hx => by simp [hnl x hx]
  simp [VirtualMachine.find_allocation_by_handle, hfw]

theorem find_allocation_live {vm : VirtualMachine} {h : Nat}
    (hl : ∃ a ∈ vm.allocation_list, a.handle = h) :
    ∃ i a, vm.find_allocation_by_handle h = .ok (i, a) ∧
      vm.allocation_list[i]? = some a ∧ a.handle = h := by
  cases hfw : findWithIndex (fun entry => entry.handle == h) vm.allocation_list with
  | none =>
    obtain ⟨a, ha, hah⟩ := hl
    have := findWithIndex_eq_none.mp hfw a ha
    simp [hah] at this
  | some hit =>
    obtain ⟨hget, hp⟩ := findWithIndex_eq_some hfw
    exact ⟨hit.1, hit.2, by simp [VirtualMachine.find_allocation_by_handle, hfw], hget,
      by simpa using hp⟩

theorem find_mapping_not_live {vm : VirtualMachine} {h : Nat}
    (hnl : ∀ m ∈ vm.mapping_list, m.mapping_handle ≠ h) :
    vm.find_mapping_by_handle h = .error .InvalidHandle := by
  have hfw : findWithIndex (fun entry => entry.mapping_handle == h) vm.mapping_list = none :=
    findWithIndex_eq_none.mpr fun x hx => by simp [hnl x hx]
  simp [VirtualMachine.find_mapping_by_handle, hfw]

theorem find_mapping_live {vm : VirtualMachine} {h : Nat}
    (hl : ∃ m ∈ vm.mapping_list, m.mapping_handle = h) :
    ∃ i m, vm.find_mapping_by_handle h = .ok (i, m) ∧
      vm.mapping_list[i]? = some m ∧ m.mapping_handle = h := by
  cases hfw : findWithIndex (fun entry => entry.mapping_handle == h) vm.mapping_list with
  | none =>
    obtain ⟨m, hm, hmh⟩ := hl
    have := findWithIndex_eq_none.mp hfw m hm
    simp [hmh] at this
  | some hit =>
    obtain ⟨hget, hp⟩ := findWithIndex_eq_some hfw
    exact ⟨hit.1, hit.2, by simp [VirtualMachine.find_mapping_by_handle, hfw], hget,
      by simpa using hp⟩

theorem find_allocation_ok_getElem {vm : VirtualMachine} {h i : Nat}
    {a : VirtualMachineAllocation} (hfind : vm.find_allocation_by_handle h = .ok (i, a)) :
    vm.allocation_list[i]? = some a ∧ a.handle = h := by
  unfold VirtualMachine.find_allocation_by_handle at hfind
  cases hfw : findWithIndex (fun entry => entry.handle == h) vm.allocation_list with
  | none => rw [hfw] at hfind; exact absurd hfind (by simp)
  | some hit =>
    rw [hfw] at hfind
    have hhit : hit = (i, a) := by simpa using hfind
    subst hhit
    obtain ⟨hget, hp⟩ := findWithIndex_eq_some hfw
    exact ⟨hget, by simpa using hp⟩

theorem find_mapping_ok_getElem {vm : VirtualMachine} {h i : Nat}
    {m : VirtualMachineMapping} (hfind : vm.find_mapping_by_handle h = .ok (i, m)) :
    vm.mapping_list[i]? = some m ∧ m.mapping_handle = h := by
  unfold VirtualMachine.find_mapping_by_handle at hfind
  cases hfw : findWithIndex (fun entry => entry.mapping_handle == h) vm.mapping_list with
  | none => rw [hfw] at hfind; exact absurd hfind (by simp)
  | some hit =>
    rw [hfw] at hfind
    have hhit : hit = (i, m) := by simpa using hfind
    subst hhit
    obtain ⟨hget, hp⟩ := findWithIndex_eq_some hfw
    exact ⟨hget, by simpa using hp⟩

/-! Per-operation state characterisations shared by several claims. -/

theorem deallocate_state (vm : VirtualMachine) (h : Nat) :
    (vm.deallocate h).2.allocation_counter = vm.allocation_counter ∧
    (vm.deallocate h).2.mapping_counter = vm.mapping_counter ∧
    (vm.deallocate h).2.mapping_list = vm.mapping_list := by
  unfold VirtualMachine.deallocate
  cases vm.find_allocation_by_handle h with
  | error e => simp
  | ok ia =>
    obtain ⟨i, a⟩ := ia
    by_cases hm : vm.is_allocation_mapped h <;> simp [hm]

theorem unmap_state (vm : VirtualMachine) (h : Nat) (ret : Int) :
    (vm.unmap h ret).2.1.allocation_counter = vm.allocation_counter ∧
    (vm.unmap h ret).2.1.mapping_counter = vm.mapping_counter ∧
    (vm.unmap h ret).2.1.allocation_list = vm.allocation_list := by
  unfold VirtualMachine.unmap
  cases vm.find_mapping_by_handle h with
  | error e => simp
  | ok im =>
    obtain ⟨i, m⟩ := im
    cases convert_hv_return ret with
    | error e => simp
    | ok u => simp

theorem reprotect_state (vm : VirtualMachine) (h : Nat) (perm : MemoryPermission) (ret : Int) :
    (vm.reprotect h perm ret).2.1.allocation_counter = vm.allocation_counter ∧
    (vm.reprotect h perm ret).2.1.mapping_counter = vm.mapping_counter ∧
    (vm.reprotect h perm ret).2.1.allocation_list = vm.allocation_list := by
  unfold VirtualMachine.reprotect
  cases vm.find_mapping_by_handle h with
  | error e => simp
  | ok im =>
    obtain ⟨i, m⟩ := im
    cases convert_hv_return ret with
    | error e => simp
    | ok u => simp

theorem map_state (vm : VirtualMachine) (h addr : Nat) (perm : MemoryPermission) (ret : Int) :
    (vm.map h addr perm ret).2.1.allocation_counter = vm.allocation_counter ∧
    (vm.map h addr perm ret).2.1.allocation_list = vm.allocation_list := by
  unfold VirtualMachine.map
  cases vm.find_allocation_by_handle h with
  | error e => simp
  | ok ia =>
    obtain ⟨i, a⟩ := ia
    by_cases halign : addr % PAGE_SIZE = 0
    · cases convert_hv_return ret with
      | error e => simp [halign]
      | ok u => simp [halign]
    · simp [halign]

/-- C10: when the native run call succeeds, `run()` decodes the native exit
record into exactly one of the four tagged exit reasons: the cancelled
reason code maps to `Cancelled`, the exception reason code maps to
`Exception` carrying the record's exception detail, the virtual-timer
reason code maps to `VTimerActivated`, and every other reason code maps
to `Unknown`; the decoder itself never produces an error. -/
theorem run_decodes_exit_reasons (ret : Int) (v : hv_vcpu_exit_t) :
    (convert_hv_return ret = .ok () →
      VirtualCpu.run ret v = .ok (VirtualCpuExitReason.from_exit v)) ∧
    (v.reason = HV_EXIT_REASON_CANCELED →
      VirtualCpuExitReason.from_exit v = .Cancelled) ∧
    (v.reason = HV_EXIT_REASON_EXCEPTION →
      VirtualCpuExitReason.from_exit v = .Exception v.exception) ∧
    (v.reason = HV_EXIT_REASON_VTIMER_ACTIVATED →
      VirtualCpuExitReason.from_exit v = .VTimerActivated) ∧
    (v.reason ≠ HV_EXIT_REASON_CANCELED → v.reason ≠ HV_EXIT_REASON_EXCEPTION →
      v.reason ≠ HV_EXIT_REASON_VTIMER_ACTIVATED →
      VirtualCpuExitReason.from_exit v = .Unknown) := by
  refine ⟨?_, ?_, ?_, ?_, ?_⟩
  · intro hok
    simp [VirtualCpu.run, hok]
  · intro h1
    simp [VirtualCpuExitReason.from_exit, h1, HV_EXIT_REASON_CANCELED]
  · intro h2
    simp [VirtualCpuExitReason.from_exit, h2, HV_EXIT_REASON_CANCELED, HV_EXIT_REASON_EXCEPTION]
  · intro h3
    simp [VirtualCpuExitReason.from_exit, h3, HV_EXIT_REASON_CANCELED, HV_EXIT_REASON_EXCEPTION,
      HV_EXIT_REASON_VTIMER_ACTIVATED]
  · intro h1 h2 h3
    simp only [VirtualCpuExitReason.from_exit, h1, h2, h3, if_false]
    split <;> rfl

/-- C10 witness: a concrete unrecognised reason code decodes to `Unknown`
through a successful `run`. -/
theorem run_decodes_exit_reasons_instance :
    VirtualCpu.run HV_SUCCESS ⟨9, ⟨1, 2, 3⟩⟩ =
      .ok (VirtualCpuExitReason.from_exit ⟨9, ⟨1, 2, 3⟩⟩) ∧
    VirtualCpuExitReason.from_exit ⟨9, ⟨1, 2, 3⟩⟩ = .Unknown :=
  ⟨(run_decodes_exit_reasons HV_SUCCESS ⟨9, ⟨1, 2, 3⟩⟩).1 rfl,
   (run_decodes_exit_reasons HV_SUCCESS ⟨9, ⟨1, 2, 3⟩⟩).2.2.2.2
     (by decide) (by decide) (by decide)⟩

/-- C2: whenever `map`, `unmap`, `reprotect` or `deallocate` returns an
error — locally synthesized or native-reported — the entire tracker
state (allocation list, mapping list and both handle counters) is exactly
as it was before the call: no partial record is committed. -/
theorem failed_ops_leave_state_unchanged (vm : VirtualMachine) :
    (∀ (h addr : Nat) (perm : MemoryPermission) (ret : Int) (e : HypervisorError),
      (vm.map h addr perm ret).1 = .error e → (vm.map h addr perm ret).2.1 = vm) ∧
    (∀ (m : Nat) (ret : Int) (e : HypervisorError),
      (vm.unmap m ret).1 = .error e → (vm.unmap m ret).2.1 = vm) ∧
    (∀ (m : Nat) (perm : MemoryPermission) (ret : Int) (e : HypervisorError),
      (vm.reprotect m perm ret).1 = .error e → (vm.reprotect m perm ret).2.1 = vm) ∧
    (∀ (h : Nat) (e : HypervisorError),
      (vm.deallocate h).1 = .error e → (vm.deallocate h).2 = vm) := by
  refine ⟨?_, ?_, ?_, ?_⟩
  · intro h addr perm ret e herr
    unfold VirtualMachine.map at *
    cases hfind : vm.find_allocation_by_handle h with
    | error e2 => simp [hfind]
    | ok ia =>
      obtain ⟨i, a⟩ := ia
      by_cases halign : addr % PAGE_SIZE = 0
      · cases hconv : convert_hv_return ret with
        | error e2 => simp [hfind, halign, hconv]
        | ok u => simp [hfind, halign, hconv] at herr
      · simp [hfind, halign]
  · intro m ret e herr
    unfold VirtualMachine.unmap at *
    cases hfind : vm.find_mapping_by_handle m with
    | error e2 => simp [hfind]
    | ok im =>
      obtain ⟨i, mp⟩ := im
      cases hconv : convert_hv_return ret with
      | error e2 => simp [hfind, hconv]
      | ok u => simp [hfind, hconv] at herr
  · intro m perm ret e herr
    unfold VirtualMachine.reprotect at *
    cases hfind : vm.find_mapping_by_handle m with
    | error e2 => simp [hfind]
    | ok im =>
      obtain ⟨i, mp⟩ := im
      cases hconv : convert_hv_return ret with
      | error e2 => simp [hfind, hconv]
      | ok u => simp [hfind, hconv] at herr
  · intro h e herr
    unfold VirtualMachine.deallocate at *
    cases hfind : vm.find_allocation_by_handle h with
    | error e2 => simp [hfind]
    | ok ia =>
      obtain ⟨i, a⟩ := ia
      by_cases hm : vm.is_allocation_mapped h
      · simp [hfind, hm]
      · simp [hfind, hm] at herr

/-- C2 witness: on the empty initial tracker, `unmap` of handle 1 fails
with `InvalidHandle` and the state is unchanged. -/
theorem failed_ops_leave_state_unchanged_instance :
    (VirtualMachine.initial.unmap 1 HV_SUCCESS).2.1 = VirtualMachine.initial :=
  (failed_ops_leave_state_unchanged VirtualMachine.initial).2.1 1 HV_SUCCESS
    .InvalidHandle rfl

/-- C3: `map` fails with `InvalidHandle` when the allocation handle is not
live; otherwise, for every guest address that is not a multiple of the
page size and every permission value, it fails with `MisalignedAddress`,
without mutating tracker state and without issuing the native mapping
call (empty native trace). -/
theorem map_error_paths (vm : VirtualMachine) (h addr : Nat)
    (perm : MemoryPermission) (ret : Int) :
    ((∀ a ∈ vm.allocation_list, a.handle ≠ h) →
      vm.map h addr perm ret = (.error .InvalidHandle, vm, [])) ∧
    ((∃ a ∈ vm.allocation_list, a.handle = h) → addr % PAGE_SIZE ≠ 0 →
      vm.map h addr perm ret = (.error .MisalignedAddress, vm, [])) := by
  constructor
  · intro hnl
    have hfind := find_allocation_not_live hnl
    simp [VirtualMachine.map, hfind]
  · intro hl halign
    obtain ⟨i, a, hfind, _, _⟩ := find_allocation_live hl
    simp [VirtualMachine.map, hfind, halign]

/-- C3 witness: on a tracker holding one allocation with handle 1,
mapping handle 2 fails with `InvalidHandle` and mapping handle 1 at the
misaligned address 5 fails with `MisalignedAddress`, in both cases with
no state change and no native call. -/
theorem map_error_paths_instance :
    (let vm : VirtualMachine :=
      { allocation_counter := ⟨1⟩
        mapping_counter := ⟨0⟩
        allocation_list := [⟨List.replicate PAGE_SIZE 0, ⟨PAGE_SIZE, PAGE_SIZE⟩, 1⟩]
        mapping_list := [] }
     vm.map 2 0 MemoryPermission.READ HV_SUCCESS = (.error .InvalidHandle, vm, []) ∧
     vm.map 1 5 MemoryPermission.READ HV_SUCCESS = (.error .MisalignedAddress, vm, [])) :=
  ⟨(map_error_paths _ 2 0 MemoryPermission.READ HV_SUCCESS).1 (by decide),
   (map_error_paths _ 1 5 MemoryPermission.READ HV_SUCCESS).2
     ⟨_, List.mem_singleton.mpr rfl, rfl⟩ (by decide)⟩

/-- C4: a successful `map` on a live allocation with page-aligned address
issues the native mapping call over the allocation's full rounded backing
size with the bitmask translation of the permission, and appends exactly
one new `Mapping` record carrying the fresh next-counter handle, the
allocation handle, the address, the permission and a size equal to the
allocation's full backing size; under well-formedness the fresh handle
differs from every recorded mapping handle. -/
theorem map_success_spec (vm : VirtualMachine) (h addr : Nat)
    (perm : MemoryPermission) (ret : Int) (i : Nat) (a : VirtualMachineAllocation)
    (hfind : vm.find_allocation_by_handle h = .ok (i, a))
    (halign : addr % PAGE_SIZE = 0)
    (hconv : convert_hv_return ret = .ok ()) :
    vm.map h addr perm ret =
      (.ok (vm.mapping_counter.val + 1),
        { vm with
          mapping_counter := ⟨vm.mapping_counter.val + 1⟩
          mapping_list := vm.mapping_list ++
            [{ allocation_handle := h
               mapping_handle := vm.mapping_counter.val + 1
               address := addr
               size := a.layout.size
               permission := perm }] },
        [.vmMap addr a.layout.size (hv_memory_flags_t_from perm)]) ∧
    ((∀ m ∈ vm.mapping_list, m.mapping_handle ≤ vm.mapping_counter.val) →
      ∀ m ∈ vm.mapping_list, m.mapping_handle ≠ vm.mapping_counter.val + 1) := by
  constructor
  · simp [VirtualMachine.map, hfind, halign, hconv, Counter.get_next_value]
  · intro hdom m hm
    exact Nat.ne_of_lt (Nat.lt_succ_of_le (hdom m hm))

/-- C4 witness: mapping allocation 1 at address 0 on a one-allocation
tracker records exactly one full-size mapping and issues the matching
native call. -/
theorem map_success_spec_instance :
    (let vm : VirtualMachine :=
      { allocation_counter := ⟨1⟩
        mapping_counter := ⟨0⟩
        allocation_list := [⟨List.replicate PAGE_SIZE 0, ⟨PAGE_SIZE, PAGE_SIZE⟩, 1⟩]
        mapping_list := [] }
     vm.map 1 0 MemoryPermission.READ_WRITE HV_SUCCESS =
      (.ok 1,
        { vm with
          mapping_counter := ⟨1⟩
          mapping_list := [{ allocation_handle := 1
                             mapping_handle := 1
                             address := 0
                             size := PAGE_SIZE
                             permission := MemoryPermission.READ_WRITE }] },
        [.vmMap 0 PAGE_SIZE (hv_memory_flags_t_from MemoryPermission.READ_WRITE)])) := by
  have := (map_success_spec
    { allocation_counter := ⟨1⟩
      mapping_counter := ⟨0⟩
      allocation_list := [⟨List.replicate PAGE_SIZE 0, ⟨PAGE_SIZE, PAGE_SIZE⟩, 1⟩]
      mapping_list := [] }
    1 0 MemoryPermission.READ_WRITE HV_SUCCESS 0
    ⟨List.replicate PAGE_SIZE 0, ⟨PAGE_SIZE, PAGE_SIZE⟩, 1⟩
    rfl rfl rfl).1
  simpa using this

/-- C7: `reprotect` on a live mapping handle (native call succeeding)
updates exactly the stored permission of that record — allocation
handle, guest address, size and every other mapping and every allocation
are unchanged — and on an unknown handle it fails with `InvalidHandle`,
leaves the state unchanged and performs no native call. -/
theorem reprotect_spec (vm : VirtualMachine) (mh : Nat) (perm : MemoryPermission) :
    (∀ (ret : Int) (i : Nat) (m : VirtualMachineMapping),
      vm.find_mapping_by_handle mh = .ok (i, m) →
      convert_hv_return ret = .ok () →
      vm.reprotect mh perm ret =
        (.ok (),
          { vm with mapping_list := vm.mapping_list.set i { m with permission := perm } },
          [.vmProtect m.address m.size (hv_memory_flags_t_from perm)]) ∧
      (vm.reprotect mh perm ret).2.1.allocation_list = vm.allocation_list ∧
      (vm.reprotect mh perm ret).2.1.allocation_counter = vm.allocation_counter ∧
      (vm.reprotect mh perm ret).2.1.mapping_counter = vm.mapping_counter ∧
      (vm.reprotect mh perm ret).2.1.mapping_list[i]? =
        some { allocation_handle := m.allocation_handle
               mapping_handle := m.mapping_handle
               address := m.address
               size := m.size
               permission := perm } ∧
      (∀ j, j ≠ i → (vm.reprotect mh perm ret).2.1.mapping_list[j]? = vm.mapping_list[j]?)) ∧
    ((∀ m ∈ vm.mapping_list, m.mapping_handle ≠ mh) →
      ∀ ret : Int, vm.reprotect mh perm ret = (.error .InvalidHandle, vm, [])) := by
  constructor
  · intro ret i m hfind hconv
    have heq : vm.reprotect mh perm ret =
        (.ok (),
          { vm with mapping_list := vm.mapping_list.set i { m with permission := perm } },
          [.vmProtect m.address m.size (hv_memory_flags_t_from perm)]) := by
      simp [VirtualMachine.reprotect, hfind, hconv]
    obtain ⟨hget, _⟩ := find_mapping_ok_getElem hfind
    have hilen : i < vm.mapping_list.length := by
      rcases List.getElem?_eq_some.mp hget with ⟨hlt, _⟩
      exact hlt
    refine ⟨heq, by rw [heq], by rw [heq], by rw [heq], ?_, ?_⟩
    · rw [heq]
      simp [List.getElem?_set, hilen]
    · intro j hj
      rw [heq]
      simp [List.getElem?_set, Ne.symm hj]
  · intro hnl ret
    have hfind := find_mapping_not_live hnl
    simp [VirtualMachine.reprotect, hfind]

/-- C7 witness: reprotecting the single live mapping of a concrete
tracker to execute-only updates exactly its permission, and reprotecting
the unknown handle 2 fails with `InvalidHandle` and no native call. -/
theorem reprotect_spec_instance :
    (let vm : VirtualMachine :=
      { allocation_counter := ⟨1⟩
        mapping_counter := ⟨1⟩
        allocation_list := [⟨List.replicate PAGE_SIZE 0, ⟨PAGE_SIZE, PAGE_SIZE⟩, 1⟩]
        mapping_list := [{ allocation_handle := 1
                           mapping_handle := 1
                           address := 0
                           size := PAGE_SIZE
                           permission := MemoryPermission.READ_WRITE }] }
     vm.reprotect 1 MemoryPermission.EXECUTE HV_SUCCESS =
        (.ok (),
          { vm with mapping_list := [{ allocation_handle := 1
                                       mapping_handle := 1
                                       address := 0
                                       size := PAGE_SIZE
                                       permission := MemoryPermission.EXECUTE }] },
          [.vmProtect 0 PAGE_SIZE (hv_memory_flags_t_from MemoryPermission.EXECUTE)]) ∧
     vm.reprotect 2 MemoryPermission.EXECUTE HV_SUCCESS = (.error .InvalidHandle, vm, [])) := by
  refine ⟨?_, ?_⟩
  · have := ((reprotect_spec
      { allocation_counter := ⟨1⟩
        mapping_counter := ⟨1⟩
        allocation_list := [⟨List.replicate PAGE_SIZE 0, ⟨PAGE_SIZE, PAGE_SIZE⟩, 1⟩]
        mapping_list := [{ allocation_handle := 1
                           mapping_handle := 1
                           address := 0
                           size := PAGE_SIZE
                           permission := MemoryPermission.READ_WRITE }] }
      1 MemoryPermission.EXECUTE).1 HV_SUCCESS 0
      { allocation_handle := 1
        mapping_handle := 1
        address := 0
        size := PAGE_SIZE
        permission := MemoryPermission.READ_WRITE }
      rfl rfl).1
    simpa using this
  · exact (reprotect_spec _ 2 MemoryPermission.EXECUTE).2 (by decide) HV_SUCCESS

/-- C1: on a duplicate-free tracker, `deallocate` of a live unmapped
handle succeeds, removes the allocation, and every subsequent lookup of
the handle (`deallocate`, `get_allocation_slice`,
`get_allocation_slice_mut`, `map`) fails with `InvalidHandle`;
`deallocate` of a handle still referenced by some mapping fails with
`AllocationStillMapped` and the allocation remains retrievable;
`deallocate` of a handle that is not live fails with `InvalidHandle`.
(Duplicate-freeness of recorded handles is the data-model invariant,
established for every reachable state by `execOp_WF`.) -/
theorem deallocate_spec (vm : VirtualMachine) (h : Nat) :
    ((vm.allocation_list.map (fun x => x.handle)).Nodup →
     vm.is_allocation_mapped h = false →
     ∀ (i : Nat) (a : VirtualMachineAllocation),
       vm.find_allocation_by_handle h = .ok (i, a) →
       vm.deallocate h = (.ok (), { vm with allocation_list := vm.allocation_list.eraseIdx i }) ∧
       (∀ y ∈ (vm.deallocate h).2.allocation_list, y.handle ≠ h) ∧
       (vm.deallocate h).2.deallocate h = (.error .InvalidHandle, (vm.deallocate h).2) ∧
       (vm.deallocate h).2.get_allocation_slice h = .error .InvalidHandle ∧
       (vm.deallocate h).2.get_allocation_slice_mut h = .error .InvalidHandle ∧
       (∀ (addr : Nat) (perm : MemoryPermission) (ret : Int),
         (vm.deallocate h).2.map h addr perm ret =
           (.error .InvalidHandle, (vm.deallocate h).2, []))) ∧
    ((∃ a ∈ vm.allocation_list, a.handle = h) →
     vm.is_allocation_mapped h = true →
     vm.deallocate h = (.error .AllocationStillMapped, vm) ∧
     ∃ buf, vm.get_allocation_slice h = .ok buf) ∧
    ((∀ a ∈ vm.allocation_list, a.handle ≠ h) →
     vm.deallocate h = (.error .InvalidHandle, vm)) := by
  refine ⟨?_, ?_, ?_⟩
  · intro hnd hunm i a hfind
    obtain ⟨hget, hah⟩ := find_allocation_ok_getElem hfind
    have heq : vm.deallocate h =
        (.ok (), { vm with allocation_list := vm.allocation_list.eraseIdx i }) := by
      simp [VirtualMachine.deallocate, hfind, hunm]
    rw [heq]
    have hnone :
        ∀ y ∈ (vm.allocation_list.eraseIdx i), y.handle ≠ h := by
      intro y hy
      have := nodup_map_eraseIdx (f := fun x => x.handle) hnd hget y hy
      simpa [hah] using this
    have hfind1 :
        VirtualMachine.find_allocation_by_handle
          { vm with allocation_list := vm.allocation_list.eraseIdx i } h =
          .error .InvalidHandle :=
      find_allocation_not_live hnone
    refine ⟨rfl, hnone, ?_, ?_, ?_, ?_⟩
    · simp [VirtualMachine.deallocate, hfind1]
    · simp [VirtualMachine.get_allocation_slice, hfind1, Except.map]
    · simp [VirtualMachine.get_allocation_slice_mut, hfind1, Except.map]
    · intro addr perm ret
      simp [VirtualMachine.map, hfind1]
  · intro hl hmapped
    obtain ⟨i, a, hfind, _, _⟩ := find_allocation_live hl
    refine ⟨by simp [VirtualMachine.deallocate, hfind, hmapped], a.buffer, ?_⟩
    simp [VirtualMachine.get_allocation_slice, hfind, Except.map]
  · intro hnl
    have hfind := find_allocation_not_live hnl
    simp [VirtualMachine.deallocate, hfind]

/-- C1 witness: on a tracker holding the single unmapped allocation 1,
`deallocate 1` succeeds and a second `deallocate 1` as well as
`get_allocation_slice 1` fail with `InvalidHandle`. -/
theorem deallocate_spec_instance :
    (let vm : VirtualMachine :=
      { allocation_counter := ⟨1⟩
        mapping_counter := ⟨0⟩
        allocation_list := [⟨List.replicate PAGE_SIZE 0, ⟨PAGE_SIZE, PAGE_SIZE⟩, 1⟩]
        mapping_list := [] }
     vm.deallocate 1 = (.ok (), { vm with allocation_list := [] }) ∧
     (vm.deallocate 1).2.deallocate 1 = (.error .InvalidHandle, (vm.deallocate 1).2) ∧
     (vm.deallocate 1).2.get_allocation_slice 1 = .error .InvalidHandle) := by
  have hpart := (deallocate_spec
    { allocation_counter := ⟨1⟩
      mapping_counter := ⟨0⟩
      allocation_list := [⟨List.replicate PAGE_SIZE 0, ⟨PAGE_SIZE, PAGE_SIZE⟩, 1⟩]
      mapping_list := [] } 1).1 (by decide) rfl 0
    ⟨List.replicate PAGE_SIZE 0, ⟨PAGE_SIZE, PAGE_SIZE⟩, 1⟩ rfl
  exact ⟨by simpa using hpart.1, hpart.2.2.1, hpart.2.2.2.1⟩

/-- C5: on a tracker whose recorded mapping handles are dominated by the
mapping counter, a successful `map` followed by `unmap` of the returned
handle restores the mapping list to its prior value; the record is
removed only after the native unmap call succeeds (a native failure
leaves the record); afterwards `get_all_mapping_infos()` no longer
contains the handle and a second `unmap` of it fails with
`InvalidHandle`. -/
theorem map_unmap_roundtrip (vm : VirtualMachine) (h addr : Nat) (perm : MemoryPermission)
    (i : Nat) (a : VirtualMachineAllocation)
    (hdom : ∀ m ∈ vm.mapping_list, m.mapping_handle ≤ vm.mapping_counter.val)
    (hfind : vm.find_allocation_by_handle h = .ok (i, a))
    (halign : addr % PAGE_SIZE = 0) :
    (vm.map h addr perm HV_SUCCESS).1 = .ok (vm.mapping_counter.val + 1) ∧
    (∀ (ret : Int) (e : HypervisorError), convert_hv_return ret = .error e →
      (vm.map h addr perm HV_SUCCESS).2.1.unmap (vm.mapping_counter.val + 1) ret =
        (.error e, (vm.map h addr perm HV_SUCCESS).2.1, [.vmUnmap addr a.layout.size])) ∧
    ((vm.map h addr perm HV_SUCCESS).2.1.unmap (vm.mapping_counter.val + 1) HV_SUCCESS).1 =
      .ok () ∧
    ((vm.map h addr perm HV_SUCCESS).2.1.unmap
        (vm.mapping_counter.val + 1) HV_SUCCESS).2.1.mapping_list = vm.mapping_list ∧
    (∀ r ∈ ((vm.map h addr perm HV_SUCCESS).2.1.unmap
        (vm.mapping_counter.val + 1) HV_SUCCESS).2.1.get_all_mapping_infos,
      r.mapping_handle ≠ vm.mapping_counter.val + 1) ∧
    (∀ ret : Int,
      ((vm.map h addr perm HV_SUCCESS).2.1.unmap
          (vm.mapping_counter.val + 1) HV_SUCCESS).2.1.unmap
        (vm.mapping_counter.val + 1) ret =
      (.error .InvalidHandle,
        ((vm.map h addr perm HV_SUCCESS).2.1.unmap
          (vm.mapping_counter.val + 1) HV_SUCCESS).2.1, [])) := by
  have hmap := (map_success_spec vm h addr perm HV_SUCCESS i a hfind halign rfl).1
  rw [hmap]
  set c := vm.mapping_counter.val with hc
  set rec : VirtualMachineMapping :=
    { allocation_handle := h
      mapping_handle := c + 1
      address := addr
      size := a.layout.size
      permission := perm } with hrec
  have hnohit : ∀ x ∈ vm.mapping_list, (fun e => e.mapping_handle == c + 1) x = false := by
    intro x hx
    simp [Nat.ne_of_lt (Nat.lt_succ_of_le (hdom x hx))]
  have hfw : findWithIndex (fun e => e.mapping_handle == c + 1)
      (vm.mapping_list ++ [rec]) = some (vm.mapping_list.length, rec) := by
    rw [findWithIndex_append_nohit hnohit]
    rw [findWithIndex_cons_hit _ (by simp)]
    simp
  have hfind1 : VirtualMachine.find_mapping_by_handle
      { vm with mapping_counter := ⟨c + 1⟩, mapping_list := vm.mapping_list ++ [rec] }
      (c + 1) = .ok (vm.mapping_list.length, rec) := by
    simp [VirtualMachine.find_mapping_by_handle, hfw]
  have herase : (vm.mapping_list ++ [rec]).eraseIdx vm.mapping_list.length =
      vm.mapping_list := by
    have := eraseIdx_append_len vm.mapping_list rec []
    simpa using this
  have hunmap : VirtualMachine.unmap
      { vm with mapping_counter := ⟨c + 1⟩, mapping_list := vm.mapping_list ++ [rec] }
      (c + 1) HV_SUCCESS =
      (.ok (),
        { vm with mapping_counter := ⟨c + 1⟩, mapping_list := vm.mapping_list },
        [.vmUnmap addr a.layout.size]) := by
    simp [VirtualMachine.unmap, hfind1, convert_hv_return, herase, hrec]
  have hnl2 : ∀ m ∈ vm.mapping_list, m.mapping_handle ≠ c + 1 := by
    intro m hm
    exact Nat.ne_of_lt (Nat.lt_succ_of_le (hdom m hm))
  have hfind2 : VirtualMachine.find_mapping_by_handle
      { vm with mapping_counter := ⟨c + 1⟩, mapping_list := vm.mapping_list }
      (c + 1) = .error .InvalidHandle :=
    find_mapping_not_live hnl2
  refine ⟨rfl, ?_, ?_, ?_, ?_, ?_⟩
  · intro ret e hconv
    simp [VirtualMachine.unmap, hfind1, hconv, hrec]
  · rw [hunmap]
  · rw [hunmap]
  · rw [hunmap]
    intro r hr
    exact hnl2 r hr
  · intro ret
    rw [hunmap]
    simp [VirtualMachine.unmap, hfind2]

/-- C5 witness: on a concrete one-allocation tracker, `map` returns
mapping handle 1, `unmap 1` succeeds and restores the empty mapping
list, and a second `unmap 1` fails with `InvalidHandle`. -/
theorem map_unmap_roundtrip_instance :
    (let vm : VirtualMachine :=
      { allocation_counter := ⟨1⟩
        mapping_counter := ⟨0⟩
        allocation_list := [⟨List.replicate PAGE_SIZE 0, ⟨PAGE_SIZE, PAGE_SIZE⟩, 1⟩]
        mapping_list := [] }
     (vm.map 1 0 MemoryPermission.READ HV_SUCCESS).1 = .ok 1 ∧
     ((vm.map 1 0 MemoryPermission.READ HV_SUCCESS).2.1.unmap 1 HV_SUCCESS).2.1.mapping_list
        = [] ∧
     (∀ ret : Int,
       ((vm.map 1 0 MemoryPermission.READ HV_SUCCESS).2.1.unmap 1 HV_SUCCESS).2.1.unmap 1 ret =
       (.error .InvalidHandle,
         ((vm.map 1 0 MemoryPermission.READ HV_SUCCESS).2.1.unmap 1 HV_SUCCESS).2.1, []))) := by
  have hall := map_unmap_roundtrip
    { allocation_counter := ⟨1⟩
      mapping_counter := ⟨0⟩
      allocation_list := [⟨List.replicate PAGE_SIZE 0, ⟨PAGE_SIZE, PAGE_SIZE⟩, 1⟩]
      mapping_list := [] }
    1 0 MemoryPermission.READ 0
    ⟨List.replicate PAGE_SIZE 0, ⟨PAGE_SIZE, PAGE_SIZE⟩, 1⟩
    (by simp) rfl rfl
  exact ⟨hall.1, hall.2.2.2.1, hall.2.2.2.2.2⟩

/-- C6 counterexample: for the size `2^63` (which exceeds
`isize::MAX - (PAGE_SIZE - 1)`), `Layout::from_size_align` fails and the
`unwrap` inside `VirtualMachineAllocation::new` panics (`none`), so
`allocate` does not return a handle: the claim's "for every size s > 0"
is too strong on a 64-bit target. -/
theorem allocate_huge_size_panics :
    VirtualMachine.initial.allocate (2 ^ 63) = none := by
  decide

/-- C6 (amended with the layout bound): for every size `s` with `0 < s`
and `s ≤ isize::MAX - (PAGE_SIZE - 1)`, on a counter-dominated tracker
`allocate(s)` returns the next counter value as handle and records an
allocation whose backing buffer has length
`ceil(s / PAGE_SIZE) * PAGE_SIZE` (computed as
`(s + PAGE_SIZE - 1) / PAGE_SIZE * PAGE_SIZE`), is page-aligned
(layout alignment `PAGE_SIZE`) and entirely zero-filled;
`get_allocation_slice` of that handle returns exactly this buffer. -/
theorem allocate_spec (vm : VirtualMachine) (s : Nat)
    (hpos : 0 < s) (hbound : s ≤ isize_MAX - (PAGE_SIZE - 1))
    (hdom : ∀ a ∈ vm.allocation_list, a.handle ≤ vm.allocation_counter.val) :
    ∃ vm1 : VirtualMachine,
      vm.allocate s = some (vm.allocation_counter.val + 1, vm1) ∧
      ∃ alc : VirtualMachineAllocation,
        vm1.allocation_list = vm.allocation_list ++ [alc] ∧
        alc.handle = vm.allocation_counter.val + 1 ∧
        alc.buffer.length = (s + PAGE_SIZE - 1) / PAGE_SIZE * PAGE_SIZE ∧
        (∀ b ∈ alc.buffer, b = 0) ∧
        alc.layout.size = alc.buffer.length ∧
        alc.layout.align = PAGE_SIZE ∧
        vm1.get_allocation_slice (vm.allocation_counter.val + 1) = .ok alc.buffer := by
  have hpow : is_power_of_two PAGE_SIZE = true := by decide
  have hnotgt : ¬ s > isize_MAX - (PAGE_SIZE - 1) := Nat.not_lt.mpr hbound
  have hnew : VirtualMachineAllocation.new s =
      some ⟨List.replicate ((s + PAGE_SIZE - 1) / PAGE_SIZE * PAGE_SIZE) 0,
            ⟨(s + PAGE_SIZE - 1) / PAGE_SIZE * PAGE_SIZE, PAGE_SIZE⟩, 0⟩ := by
    simp [VirtualMachineAllocation.new, Layout.from_size_align, Layout.pad_to_align,
      hpow, hnotgt]
  set r := (s + PAGE_SIZE - 1) / PAGE_SIZE * PAGE_SIZE with hrdef
  set c := vm.allocation_counter.val with hcdef
  set alc : VirtualMachineAllocation := ⟨List.replicate r 0, ⟨r, PAGE_SIZE⟩, c + 1⟩
    with halc
  have halloc : vm.allocate s =
      some (c + 1,
        { vm with
          allocation_counter := ⟨c + 1⟩
          allocation_list := vm.allocation_list ++ [alc] }) := by
    simp [VirtualMachine.allocate, hnew, Counter.get_next_value, halc]
  refine ⟨_, halloc, alc, rfl, rfl, by simp [halc], ?_, by simp [halc], rfl, ?_⟩
  · intro b hb
    exact List.eq_of_mem_replicate hb
  · have hnohit : ∀ x ∈ vm.allocation_list, (fun e => e.handle == c + 1) x = false := by
      intro x hx
      simp [Nat.ne_of_lt (Nat.lt_succ_of_le (hdom x hx))]
    have hfw : findWithIndex (fun e => e.handle == c + 1)
        (vm.allocation_list ++ [alc]) = some (vm.allocation_list.length, alc) := by
      rw [findWithIndex_append_nohit hnohit]
      rw [findWithIndex_cons_hit _ (by simp [halc])]
      simp
    simp [VirtualMachine.get_allocation_slice, VirtualMachine.find_allocation_by_handle,
      hfw, Except.map]

/-- C6 witness: allocating one byte on the fresh tracker yields handle 1
backed by exactly one zero-filled page. -/
theorem allocate_spec_instance :
    ∃ vm1 : VirtualMachine,
      VirtualMachine.initial.allocate 1 = some (1, vm1) ∧
      ∃ alc : VirtualMachineAllocation,
        vm1.allocation_list = [] ++ [alc] ∧
        alc.handle = 1 ∧
        alc.buffer.length = (1 + PAGE_SIZE - 1) / PAGE_SIZE * PAGE_SIZE ∧
        (∀ b ∈ alc.buffer, b = 0) ∧
        alc.layout.size = alc.buffer.length ∧
        alc.layout.align = PAGE_SIZE ∧
        vm1.get_allocation_slice 1 = .ok alc.buffer :=
  allocate_spec VirtualMachine.initial 1 (by decide) (by decide) (by decide)

/-! Counter accounting for the handle-uniqueness claim. -/

theorem allocate_eq_some {vm : VirtualMachine} {size h0 : Nat} {vm1 : VirtualMachine}
    (h : vm.allocate size = some (h0, vm1)) :
    h0 = vm.allocation_counter.val + 1 ∧
    vm1.allocation_counter.val = vm.allocation_counter.val + 1 ∧
    vm1.mapping_counter = vm.mapping_counter := by
  unfold VirtualMachine.allocate at h
  obtain ⟨alloc0, hnew, heq⟩ := Option.map_eq_some'.mp h
  simp only [Counter.get_next_value, Prod.mk.injEq] at heq
  obtain ⟨h1, h2⟩ := heq
  subst h1
  rw [← h2]
  exact ⟨rfl, rfl, rfl⟩

theorem allocate_from_eq_some {vm : VirtualMachine} {source : List Nat}
    {res : Except HypervisorError Nat} {vm1 : VirtualMachine}
    (h : vm.allocate_from source = some (res, vm1)) :
    vm1.allocation_counter.val = vm.allocation_counter.val + 1 ∧
    vm1.mapping_counter = vm.mapping_counter ∧
    (∀ x, res = .ok x → x = vm.allocation_counter.val + 1) := by
  unfold VirtualMachine.allocate_from at h
  obtain ⟨⟨h0, vmA⟩, hallocEq, heq⟩ := Option.map_eq_some'.mp h
  obtain ⟨hh0, hcA, hmA⟩ := allocate_eq_some hallocEq
  simp only at heq
  cases hfind : vmA.find_allocation_by_handle h0 with
  | ok ia =>
    obtain ⟨i, a⟩ := ia
    rw [hfind] at heq
    simp only [Prod.mk.injEq] at heq
    obtain ⟨hres, hvm1⟩ := heq
    subst hvm1
    refine ⟨by simpa using hcA, by simpa using hmA, ?_⟩
    intro x hx
    rw [← hres] at hx
    injection hx with hx
    omega
  | error e =>
    rw [hfind] at heq
    simp only [Prod.mk.injEq] at heq
    obtain ⟨hres, hvm1⟩ := heq
    subst hvm1
    refine ⟨hcA, hmA, ?_⟩
    intro x hx
    rw [← hres] at hx
    exact absurd hx (by simp)

theorem map_result_cases (vm : VirtualMachine) (h addr : Nat)
    (perm : MemoryPermission) (ret : Int) :
    ((∃ e, (vm.map h addr perm ret).1 = .error e) ∧ (vm.map h addr perm ret).2.1 = vm) ∨
    ((vm.map h addr perm ret).1 = .ok (vm.mapping_counter.val + 1) ∧
     (vm.map h addr perm ret).2.1.mapping_counter.val = vm.mapping_counter.val + 1 ∧
     (vm.map h addr perm ret).2.1.allocation_counter = vm.allocation_counter) := by
  unfold VirtualMachine.map
  cases vm.find_allocation_by_handle h with
  | error e => exact Or.inl ⟨⟨e, by simp⟩, by simp⟩
  | ok ia =>
    obtain ⟨i, a⟩ := ia
    by_cases halign : addr % PAGE_SIZE = 0
    · cases convert_hv_return ret with
      | error e => exact Or.inl ⟨⟨e, by simp [halign]⟩, by simp [halign]⟩
      | ok u => exact Or.inr (by simp [halign, Counter.get_next_value])
    · exact Or.inl ⟨⟨.MisalignedAddress, by simp [halign]⟩, by simp [halign]⟩

theorem execOp_counters {vm : VirtualMachine} {op : TrackerOp}
    {vm1 : VirtualMachine} {as ms : List Nat}
    (h : execOp vm op = some (vm1, as, ms)) :
    vm.allocation_counter.val ≤ vm1.allocation_counter.val ∧
    vm.mapping_counter.val ≤ vm1.mapping_counter.val ∧
    (∀ x ∈ as, vm.allocation_counter.val < x ∧ x ≤ vm1.allocation_counter.val) ∧
    (∀ x ∈ ms, vm.mapping_counter.val < x ∧ x ≤ vm1.mapping_counter.val) ∧
    as.Pairwise (· < ·) ∧ ms.Pairwise (· < ·) := by
  cases op with
  | allocate size =>
    simp only [execOp] at h
    obtain ⟨⟨h0, vmx⟩, hval, heq⟩ := Option.map_eq_some'.mp h
    simp only [Prod.mk.injEq] at heq
    obtain ⟨h1, h2, h3⟩ := heq
    subst h1; subst h2; subst h3
    obtain ⟨hh0, hc, hm⟩ := allocate_eq_some hval
    subst hh0
    refine ⟨by omega, by rw [hm], ?_, by simp, by simp, by simp⟩
    intro x hx
    simp only [List.mem_singleton] at hx
    subst hx
    omega
  | allocate_from source =>
    simp only [execOp] at h
    obtain ⟨⟨res, vmx⟩, hval, heq⟩ := Option.map_eq_some'.mp h
    obtain ⟨hc, hm, hok⟩ := allocate_from_eq_some hval
    cases res with
    | ok x =>
      simp only [Prod.mk.injEq] at heq
      obtain ⟨h1, h2, h3⟩ := heq
      subst h1; subst h2; subst h3
      have hx := hok x rfl
      subst hx
      refine ⟨by omega, by rw [hm], ?_, by simp, by simp, by simp⟩
      intro y hy
      simp only [List.mem_singleton] at hy
      subst hy
      omega
    | error e =>
      simp only [Prod.mk.injEq] at heq
      obtain ⟨h1, h2, h3⟩ := heq
      subst h1; subst h2; subst h3
      exact ⟨by omega, by rw [hm], by simp, by simp, by simp, by simp⟩
  | deallocate hd =>
    simp only [execOp, Option.some_inj, Prod.mk.injEq] at h
    obtain ⟨h1, h2, h3⟩ := h
    subst h1; subst h2; subst h3
    obtain ⟨hc, hm, _⟩ := deallocate_state vm hd
    exact ⟨by rw [hc], by rw [hm], by simp, by simp, by simp, by simp⟩
  | map hd addr perm ret =>
    simp only [execOp, Option.some_inj, Prod.mk.injEq] at h
    obtain ⟨h1, h2, h3⟩ := h
    subst h1; subst h2
    rcases map_result_cases vm hd addr perm ret with ⟨⟨e, hres⟩, hstate⟩ | ⟨hres, hmc, hac⟩
    · rw [hres] at h3
      subst h3
      rw [hstate]
      exact ⟨le_refl _, le_refl _, by simp, by simp, by simp, by simp⟩
    · rw [hres] at h3
      subst h3
      refine ⟨by rw [hac], by omega, by simp, ?_, by simp, by simp⟩
      intro x hx
      simp only [List.mem_singleton] at hx
      subst hx
      omega
  | unmap hd ret =>
    simp only [execOp, Option.some_inj, Prod.mk.injEq] at h
    obtain ⟨h1, h2, h3⟩ := h
    subst h1; subst h2; subst h3
    obtain ⟨hc, hm, _⟩ := unmap_state vm hd ret
    exact ⟨by rw [hc], by rw [hm], by simp, by simp, by simp, by simp⟩
  | reprotect hd perm ret =>
    simp only [execOp, Option.some_inj, Prod.mk.injEq] at h
    obtain ⟨h1, h2, h3⟩ := h
    subst h1; subst h2; subst h3
    obtain ⟨hc, hm, _⟩ := reprotect_state vm hd perm ret
    exact ⟨by rw [hc], by rw [hm], by simp, by simp, by simp, by simp⟩

theorem execOps_counters {ops : List TrackerOp} :
    ∀ {vm vm2 : VirtualMachine} {as ms : List Nat},
      execOps vm ops = some (vm2, as, ms) →
      vm.allocation_counter.val ≤ vm2.allocation_counter.val ∧
      vm.mapping_counter.val ≤ vm2.mapping_counter.val ∧
      (∀ x ∈ as, vm.allocation_counter.val < x ∧ x ≤ vm2.allocation_counter.val) ∧
      (∀ x ∈ ms, vm.mapping_counter.val < x ∧ x ≤ vm2.mapping_counter.val) ∧
      as.Pairwise (· < ·) ∧ ms.Pairwise (· < ·) := by
  induction ops with
  | nil =>
    intro vm vm2 as ms h
    simp only [execOps, Option.some_inj, Prod.mk.injEq] at h
    obtain ⟨h1, h2, h3⟩ := h
    subst h1; subst h2; subst h3
    simp
  | cons op ops ih =>
    intro vm vm2 as ms h
    simp only [execOps] at h
    obtain ⟨⟨vmA, asA, msA⟩, hop, hrest⟩ := Option.bind_eq_some.mp h
    obtain ⟨⟨vmB, asB, msB⟩, hops, heq⟩ := Option.map_eq_some'.mp hrest
    simp only [Prod.mk.injEq] at heq
    obtain ⟨h1, h2, h3⟩ := heq
    subst h1; subst h2; subst h3
    obtain ⟨ha1, hm1, haA, hmA, hpA, hpmA⟩ := execOp_counters hop
    obtain ⟨ha2, hm2, haB, hmB, hpB, hpmB⟩ := ih hops
    refine ⟨le_trans ha1 ha2, le_trans hm1 hm2, ?_, ?_, ?_, ?_⟩
    · intro x hx
      rcases List.mem_append.mp hx with hx | hx
      · obtain ⟨hlt, hle⟩ := haA x hx
        exact ⟨hlt, le_trans hle ha2⟩
      · obtain ⟨hlt, hle⟩ := haB x hx
        exact ⟨lt_of_le_of_lt ha1 hlt, hle⟩
    · intro x hx
      rcases List.mem_append.mp hx with hx | hx
      · obtain ⟨hlt, hle⟩ := hmA x hx
        exact ⟨hlt, le_trans hle hm2⟩
      · obtain ⟨hlt, hle⟩ := hmB x hx
        exact ⟨lt_of_le_of_lt hm1 hlt, hle⟩
    · rw [List.pairwise_append]
      refine ⟨hpA, hpB, ?_⟩
      intro x hx y hy
      obtain ⟨_, hxle⟩ := haA x hx
      obtain ⟨hylt, _⟩ := haB y hy
      exact lt_of_le_of_lt hxle hylt
    · rw [List.pairwise_append]
      refine ⟨hpmA, hpmB, ?_⟩
      intro x hx y hy
      obtain ⟨_, hxle⟩ := hmA x hx
      obtain ⟨hylt, _⟩ := hmB y hy
      exact lt_of_le_of_lt hxle hylt

/-- C8: along every sequence of tracker operations executed from the
fresh tracker, the allocation handles returned by `allocate` and
`allocate_from` form a strictly increasing sequence, and so do the
mapping handles returned by `map` — every newly issued handle is
strictly greater than all previously issued ones, so no handle value is
ever reused, even after `deallocate` or `unmap`. -/
theorem handles_never_reused (ops : List TrackerOp) (vm2 : VirtualMachine)
    (as ms : List Nat)
    (h : execOps VirtualMachine.initial ops = some (vm2, as, ms)) :
    as.Pairwise (· < ·) ∧ ms.Pairwise (· < ·) :=
  ⟨(execOps_counters h).2.2.2.2.1, (execOps_counters h).2.2.2.2.2⟩

/-- C8 witness: two allocations followed by a map issue allocation
handles 1, 2 and mapping handle 1, each strictly above its predecessors. -/
theorem handles_never_reused_instance :
    ([1, 2] : List Nat).Pairwise (· < ·) ∧ ([1] : List Nat).Pairwise (· < ·) :=
  handles_never_reused
    [.allocate 1, .allocate 1, .map 1 0 ⟨true, true, false⟩ HV_SUCCESS]
    { allocation_counter := ⟨2⟩
      mapping_counter := ⟨1⟩
      allocation_list :=
        [⟨List.replicate PAGE_SIZE 0, ⟨PAGE_SIZE, PAGE_SIZE⟩, 1⟩,
         ⟨List.replicate PAGE_SIZE 0, ⟨PAGE_SIZE, PAGE_SIZE⟩, 2⟩]
      mapping_list :=
        [{ allocation_handle := 1
           mapping_handle := 1
           address := 0
           size := PAGE_SIZE
           permission := ⟨true, true, false⟩ }] }
    [1, 2] [1] (by rfl)

theorem drop_unmap_loop_success (snapshot : List VirtualMachineMapping) :
    ∀ vm : VirtualMachine, vm.mapping_list = snapshot →
      vm.drop_unmap_loop snapshot (fun _ => HV_SUCCESS) =
        (some { vm with mapping_list := [] },
         snapshot.map fun m => .vmUnmap m.address m.size) := by
  induction snapshot with
  | nil =>
    intro vm hvm
    have hvmeq : { vm with mapping_list := ([] : List VirtualMachineMapping) } = vm := by
      cases vm
      simp_all
    simp [VirtualMachine.drop_unmap_loop, hvmeq]
  | cons m rest ih =>
    intro vm hvm
    have hfw : findWithIndex (fun e => e.mapping_handle == m.mapping_handle)
        vm.mapping_list = some (0, m) := by
      rw [hvm]
      exact findWithIndex_cons_hit _ (by simp)
    have hfind : vm.find_mapping_by_handle m.mapping_handle = .ok (0, m) := by
      simp [VirtualMachine.find_mapping_by_handle, hfw]
    have hunm : vm.unmap m.mapping_handle HV_SUCCESS =
        (.ok (), { vm with mapping_list := rest }, [.vmUnmap m.address m.size]) := by
      simp [VirtualMachine.unmap, hfind, convert_hv_return, hvm]
    simp only [VirtualMachine.drop_unmap_loop, hunm]
    rw [ih { vm with mapping_list := rest } rfl]
    simp

theorem drop_unmap_loop_first_fail (snapshot : List VirtualMachineMapping) :
    ∀ (vm : VirtualMachine) (rets : Nat → Int) (k : Nat) (e : HypervisorError)
      (m : VirtualMachineMapping),
      vm.mapping_list = snapshot →
      snapshot[k]? = some m →
      (∀ j < k, convert_hv_return (rets j) = .ok ()) →
      convert_hv_return (rets k) = .error e →
      vm.drop_unmap_loop snapshot rets =
        (none, ((snapshot.take k).map fun x => .vmUnmap x.address x.size) ++
          [.vmUnmap m.address m.size]) := by
  induction snapshot with
  | nil =>
    intro vm rets k e m hvm hget hok hfail
    simp at hget
  | cons m0 rest ih =>
    intro vm rets k e m hvm hget hok hfail
    have hfw : findWithIndex (fun x => x.mapping_handle == m0.mapping_handle)
        vm.mapping_list = some (0, m0) := by
      rw [hvm]
      exact findWithIndex_cons_hit _ (by simp)
    have hfind : vm.find_mapping_by_handle m0.mapping_handle = .ok (0, m0) := by
      simp [VirtualMachine.find_mapping_by_handle, hfw]
    cases k with
    | zero =>
      simp only [List.getElem?_cons_zero, Option.some_inj] at hget
      subst hget
      have hunm : vm.unmap m0.mapping_handle (rets 0) =
          (.error e, vm, [.vmUnmap m0.address m0.size]) := by
        simp [VirtualMachine.unmap, hfind, hfail]
      simp [VirtualMachine.drop_unmap_loop, hunm]
    | succ j =>
      simp only [List.getElem?_cons_succ] at hget
      have hok0 : convert_hv_return (rets 0) = .ok () := hok 0 (Nat.succ_pos j)
      have hunm : vm.unmap m0.mapping_handle (rets 0) =
          (.ok (), { vm with mapping_list := rest }, [.vmUnmap m0.address m0.size]) := by
        simp [VirtualMachine.unmap, hfind, hok0, hvm]
      simp only [VirtualMachine.drop_unmap_loop, hunm]
      rw [ih { vm with mapping_list := rest } (fun i => rets (i + 1)) j e m rfl hget
        (fun i hi => hok (i + 1) (Nat.succ_lt_succ hi)) hfail]
      simp

/-- C9: on `VirtualMachine` destruction, a native unmap call is issued
for every recorded mapping — removing the records — before the native
VM-destroy call, in that order; a failing VM-destroy is unrecoverable
(panic, `none`), and a failing unmap at ANY position `k` of the mapping
list (all earlier unmaps succeeding) panics on the spot: the trace ends
with the failing unmap and the VM-destroy call is never issued. -/
theorem drop_teardown_spec (vm : VirtualMachine) :
    (vm.drop_unmap_loop vm.get_all_mapping_infos (fun _ => HV_SUCCESS) =
      (some { vm with mapping_list := [] },
       vm.mapping_list.map fun m => .vmUnmap m.address m.size)) ∧
    (vm.drop (fun _ => HV_SUCCESS) HV_SUCCESS =
      (some (), (vm.mapping_list.map fun m => .vmUnmap m.address m.size) ++ [.vmDestroy])) ∧
    (∀ (destroyRet : Int) (e : HypervisorError), convert_hv_return destroyRet = .error e →
      vm.drop (fun _ => HV_SUCCESS) destroyRet =
        (none, (vm.mapping_list.map fun m => .vmUnmap m.address m.size) ++ [.vmDestroy])) ∧
    (∀ (rets : Nat → Int) (k : Nat) (e : HypervisorError) (m : VirtualMachineMapping),
      vm.mapping_list[k]? = some m →
      (∀ j < k, convert_hv_return (rets j) = .ok ()) →
      convert_hv_return (rets k) = .error e →
      ∀ destroyRet : Int,
        vm.drop rets destroyRet =
          (none, ((vm.mapping_list.take k).map fun x => .vmUnmap x.address x.size) ++
            [.vmUnmap m.address m.size])) := by
  have hloop := drop_unmap_loop_success vm.mapping_list vm rfl
  refine ⟨hloop, ?_, ?_, ?_⟩
  · simp [VirtualMachine.drop, VirtualMachine.get_all_mapping_infos, hloop,
      convert_hv_return]
  · intro destroyRet e hconv
    simp [VirtualMachine.drop, VirtualMachine.get_all_mapping_infos, hloop, hconv]
  · intro rets k e m hget hok hfail destroyRet
    have hfailloop :=
      drop_unmap_loop_first_fail vm.mapping_list vm rets k e m rfl hget hok hfail
    simp [VirtualMachine.drop, VirtualMachine.get_all_mapping_infos, hfailloop]

/-- C9 witness: on a tracker with two recorded mappings, a clean teardown
issues both unmaps and then the VM-destroy call; when the SECOND unmap
fails (the first having succeeded), the teardown panics with the failing
unmap as the last native call — the VM-destroy call is never issued. -/
theorem drop_teardown_spec_instance :
    (let vm : VirtualMachine :=
      { allocation_counter := ⟨1⟩
        mapping_counter := ⟨2⟩
        allocation_list := [⟨List.replicate PAGE_SIZE 0, ⟨PAGE_SIZE, PAGE_SIZE⟩, 1⟩]
        mapping_list := [{ allocation_handle := 1
                           mapping_handle := 1
                           address := 0
                           size := PAGE_SIZE
                           permission := MemoryPermission.READ },
                         { allocation_handle := 1
                           mapping_handle := 2
                           address := PAGE_SIZE
                           size := PAGE_SIZE
                           permission := MemoryPermission.READ }] }
     vm.drop (fun _ => HV_SUCCESS) HV_SUCCESS =
       (some (), [.vmUnmap 0 PAGE_SIZE, .vmUnmap PAGE_SIZE PAGE_SIZE, .vmDestroy]) ∧
     vm.drop (fun i => if i = 0 then HV_SUCCESS else HV_ERROR) HV_SUCCESS =
       (none, [.vmUnmap 0 PAGE_SIZE, .vmUnmap PAGE_SIZE PAGE_SIZE])) := by
  refine ⟨?_, ?_⟩
  · have := (drop_teardown_spec
      { allocation_counter := ⟨1⟩
        mapping_counter := ⟨2⟩
        allocation_list := [⟨List.replicate PAGE_SIZE 0, ⟨PAGE_SIZE, PAGE_SIZE⟩, 1⟩]
        mapping_list := [{ allocation_handle := 1
                           mapping_handle := 1
                           address := 0
                           size := PAGE_SIZE
                           permission := MemoryPermission.READ },
                         { allocation_handle := 1
                           mapping_handle := 2
                           address := PAGE_SIZE
                           size := PAGE_SIZE
                           permission := MemoryPermission.READ }] }).2.1
    simpa using this
  · have := (drop_teardown_spec
      { allocation_counter := ⟨1⟩
        mapping_counter := ⟨2⟩
        allocation_list := [⟨List.replicate PAGE_SIZE 0, ⟨PAGE_SIZE, PAGE_SIZE⟩, 1⟩]
        mapping_list := [{ allocation_handle := 1
                           mapping_handle := 1
                           address := 0
                           size := PAGE_SIZE
                           permission := MemoryPermission.READ },
                         { allocation_handle := 1
                           mapping_handle := 2
                           address := PAGE_SIZE
                           size := PAGE_SIZE
                           permission := MemoryPermission.READ }] }).2.2.2
      (fun i => if i = 0 then HV_SUCCESS else HV_ERROR) 1 .Error
      { allocation_handle := 1
        mapping_handle := 2
        address := PAGE_SIZE
        size := PAGE_SIZE
        permission := MemoryPermission.READ }
      rfl
      (by
        intro j hj
        have hj0 : j = 0 := by omega
        subst hj0
        rfl)
      rfl HV_SUCCESS
    simpa using this

/-! Preservation of well-formedness by every tracker operation. -/

theorem set_getElem_self {α : Type} {l : List α} {i : Nat} {x : α}
    (h : l[i]? = some x) : l.set i x = l := by
  induction l generalizing i with
  | nil => simp at h
  | cons a t ih =>
    cases i with
    | zero =>
      simp only [List.getElem?_cons_zero, Option.some_inj] at h
      subst h
      rfl
    | succ j =>
      simp only [List.getElem?_cons_succ] at h
      simp [List.set, ih h]

theorem nodup_map_set_same {α β : Type} {f : α → β} {l : List α} {i : Nat}
    {x y : α} (hget : l[i]? = some x) (hf : f y = f x) :
    (l.set i y).map f = l.map f := by
  rw [List.map_set]
  apply set_getElem_self
  rw [List.getElem?_map, hget]
  simp [hf]

theorem WF_initial : VirtualMachine.initial.WF := by decide

theorem allocate_shape {vm : VirtualMachine} {size h0 : Nat} {vm1 : VirtualMachine}
    (h : vm.allocate size = some (h0, vm1)) :
    h0 = vm.allocation_counter.val + 1 ∧
    vm1.allocation_counter = ⟨vm.allocation_counter.val + 1⟩ ∧
    vm1.mapping_counter = vm.mapping_counter ∧
    vm1.mapping_list = vm.mapping_list ∧
    ∃ alc : VirtualMachineAllocation, alc.handle = h0 ∧
      vm1.allocation_list = vm.allocation_list ++ [alc] := by
  unfold VirtualMachine.allocate at h
  obtain ⟨alloc0, hnew, heq⟩ := Option.map_eq_some'.mp h
  simp only [Counter.get_next_value, Prod.mk.injEq] at heq
  obtain ⟨h1, h2⟩ := heq
  subst h1
  rw [← h2]
  exact ⟨rfl, rfl, rfl, rfl, _, rfl, rfl⟩

theorem WF_append_allocation {vm : VirtualMachine} (hwf : vm.WF)
    {alc : VirtualMachineAllocation}
    (hh : alc.handle = vm.allocation_counter.val + 1) :
    ({ vm with
       allocation_counter := ⟨vm.allocation_counter.val + 1⟩
       allocation_list := vm.allocation_list ++ [alc] } : VirtualMachine).WF := by
  obtain ⟨ha1, ha2, hm1, hm2⟩ := hwf
  refine ⟨?_, ?_, hm1, hm2⟩
  · intro a ha
    rcases List.mem_append.mp ha with ha | ha
    · exact le_trans (ha1 a ha) (Nat.le_succ _)
    · simp only [List.mem_singleton] at ha
      subst ha
      simp [hh]
  · rw [List.map_append]
    rw [List.nodup_append]
    refine ⟨ha2, by simp, ?_⟩
    intro x hx
    simp only [List.map_singleton, List.mem_singleton]
    obtain ⟨a, hamem, hax⟩ := List.mem_map.mp hx
    intro hcontra
    subst hcontra
    have := ha1 a hamem
    omega

theorem WF_append_mapping {vm : VirtualMachine} (hwf : vm.WF)
    {rec : VirtualMachineMapping}
    (hh : rec.mapping_handle = vm.mapping_counter.val + 1) :
    ({ vm with
       mapping_counter := ⟨vm.mapping_counter.val + 1⟩
       mapping_list := vm.mapping_list ++ [rec] } : VirtualMachine).WF := by
  obtain ⟨ha1, ha2, hm1, hm2⟩ := hwf
  refine ⟨ha1, ha2, ?_, ?_⟩
  · intro m hm
    rcases List.mem_append.mp hm with hm | hm
    · exact le_trans (hm1 m hm) (Nat.le_succ _)
    · simp only [List.mem_singleton] at hm
      subst hm
      simp [hh]
  · rw [List.map_append]
    rw [List.nodup_append]
    refine ⟨hm2, by simp, ?_⟩
    intro x hx
    simp only [List.map_singleton, List.mem_singleton]
    obtain ⟨m, hmmem, hmx⟩ := List.mem_map.mp hx
    intro hcontra
    subst hcontra
    have := hm1 m hmmem
    omega

theorem WF_erase_allocation {vm : VirtualMachine} (hwf : vm.WF) (i : Nat) :
    ({ vm with allocation_list := vm.allocation_list.eraseIdx i } : VirtualMachine).WF := by
  obtain ⟨ha1, ha2, hm1, hm2⟩ := hwf
  exact ⟨fun a ha => ha1 a ((List.eraseIdx_sublist _ i).subset ha),
    ha2.sublist ((List.eraseIdx_sublist _ i).map _), hm1, hm2⟩

theorem WF_erase_mapping {vm : VirtualMachine} (hwf : vm.WF) (i : Nat) :
    ({ vm with mapping_list := vm.mapping_list.eraseIdx i } : VirtualMachine).WF := by
  obtain ⟨ha1, ha2, hm1, hm2⟩ := hwf
  exact ⟨ha1, ha2, fun m hm => hm1 m ((List.eraseIdx_sublist _ i).subset hm),
    hm2.sublist ((List.eraseIdx_sublist _ i).map _)⟩

theorem deallocate_result_shape (vm : VirtualMachine) (h : Nat) :
    (vm.deallocate h).2 = vm ∨
    ∃ i, (vm.deallocate h).2 =
      { vm with allocation_list := vm.allocation_list.eraseIdx i } := by
  unfold VirtualMachine.deallocate
  cases vm.find_allocation_by_handle h with
  | error e => exact Or.inl (by simp)
  | ok ia =>
    obtain ⟨i, a⟩ := ia
    by_cases hm : vm.is_allocation_mapped h
    · exact Or.inl (by simp [hm])
    · exact Or.inr ⟨i, by simp [hm]⟩

theorem map_result_shape (vm : VirtualMachine) (h addr : Nat)
    (perm : MemoryPermission) (ret : Int) :
    (vm.map h addr perm ret).2.1 = vm ∨
    ∃ rec : VirtualMachineMapping,
      rec.mapping_handle = vm.mapping_counter.val + 1 ∧
      (vm.map h addr perm ret).2.1 =
        { vm with
          mapping_counter := ⟨vm.mapping_counter.val + 1⟩
          mapping_list := vm.mapping_list ++ [rec] } := by
  unfold VirtualMachine.map
  cases vm.find_allocation_by_handle h with
  | error e => exact Or.inl (by simp)
  | ok ia =>
    obtain ⟨i, a⟩ := ia
    by_cases halign : addr % PAGE_SIZE = 0
    · cases convert_hv_return ret with
      | error e => exact Or.inl (by simp [halign])
      | ok u =>
        refine Or.inr ⟨{ allocation_handle := h
                         mapping_handle := vm.mapping_counter.val + 1
                         address := addr
                         size := a.layout.size
                         permission := perm }, rfl, ?_⟩
        simp [halign, Counter.get_next_value]
    · exact Or.inl (by simp [halign])

theorem unmap_result_shape (vm : VirtualMachine) (h : Nat) (ret : Int) :
    (vm.unmap h ret).2.1 = vm ∨
    ∃ i, (vm.unmap h ret).2.1 =
      { vm with mapping_list := vm.mapping_list.eraseIdx i } := by
  unfold VirtualMachine.unmap
  cases vm.find_mapping_by_handle h with
  | error e => exact Or.inl (by simp)
  | ok im =>
    obtain ⟨i, m⟩ := im
    cases convert_hv_return ret with
    | error e => exact Or.inl (by simp)
    | ok u => exact Or.inr ⟨i, by simp⟩

theorem reprotect_result_shape (vm : VirtualMachine) (h : Nat)
    (perm : MemoryPermission) (ret : Int) :
    (vm.reprotect h perm ret).2.1 = vm ∨
    ∃ (i : Nat) (m : VirtualMachineMapping),
      vm.mapping_list[i]? = some m ∧
      (vm.reprotect h perm ret).2.1 =
        { vm with
          mapping_list := vm.mapping_list.set i { m with permission := perm } } := by
  unfold VirtualMachine.reprotect
  cases hfind : vm.find_mapping_by_handle h with
  | error e => exact Or.inl (by simp)
  | ok im =>
    obtain ⟨i, m⟩ := im
    cases convert_hv_return ret with
    | error e => exact Or.inl (by simp)
    | ok u => exact Or.inr ⟨i, m, (find_mapping_ok_getElem hfind).1, by simp⟩

theorem WF_set_allocation_same_handle {vm : VirtualMachine} (hwf : vm.WF)
    {i : Nat} {a b : VirtualMachineAllocation}
    (hget : vm.allocation_list[i]? = some a) (hh : b.handle = a.handle) :
    ({ vm with allocation_list := vm.allocation_list.set i b } : VirtualMachine).WF := by
  obtain ⟨ha1, ha2, hm1, hm2⟩ := hwf
  refine ⟨?_, ?_, hm1, hm2⟩
  · intro x hx
    rcases List.mem_or_eq_of_mem_set hx with hx | hx
    · exact ha1 x hx
    · subst hx
      rw [hh]
      exact ha1 a (List.getElem?_mem hget)
  · rw [nodup_map_set_same hget hh]
    exact ha2

theorem WF_set_mapping_same_handle {vm : VirtualMachine} (hwf : vm.WF)
    {i : Nat} {m n : VirtualMachineMapping}
    (hget : vm.mapping_list[i]? = some m) (hh : n.mapping_handle = m.mapping_handle) :
    ({ vm with mapping_list := vm.mapping_list.set i n } : VirtualMachine).WF := by
  obtain ⟨ha1, ha2, hm1, hm2⟩ := hwf
  refine ⟨ha1, ha2, ?_, ?_⟩
  · intro x hx
    rcases List.mem_or_eq_of_mem_set hx with hx | hx
    · exact hm1 x hx
    · subst hx
      rw [hh]
      exact hm1 m (List.getElem?_mem hget)
  · rw [nodup_map_set_same hget hh]
    exact hm2

theorem execOp_WF {vm : VirtualMachine} {op : TrackerOp} {vm1 : VirtualMachine}
    {as ms : List Nat} (hwf : vm.WF) (h : execOp vm op = some (vm1, as, ms)) :
    vm1.WF := by
  cases op with
  | allocate size =>
    simp only [execOp] at h
    obtain ⟨⟨h0, vmx⟩, hval, heq⟩ := Option.map_eq_some'.mp h
    simp only [Prod.mk.injEq] at heq
    obtain ⟨h1, _, _⟩ := heq
    subst h1
    obtain ⟨hh0, hac, hmc, hml, alc, halch, hal⟩ := allocate_shape hval
    have hvmx : vmx =
        { vm with
          allocation_counter := ⟨vm.allocation_counter.val + 1⟩
          allocation_list := vm.allocation_list ++ [alc] } := by
      cases vmx
      simp_all
    rw [hvmx]
    exact WF_append_allocation hwf (halch.trans hh0)
  | allocate_from source =>
    simp only [execOp] at h
    obtain ⟨⟨res, vmx⟩, hval, heq⟩ := Option.map_eq_some'.mp h
    have hwfx : vmx.WF := by
      unfold VirtualMachine.allocate_from at hval
      obtain ⟨⟨h0, vmA⟩, hallocEq, heq2⟩ := Option.map_eq_some'.mp hval
      obtain ⟨hh0, hac, hmc, hml, alc, halch, hal⟩ := allocate_shape hallocEq
      have hvmA : vmA =
          { vm with
            allocation_counter := ⟨vm.allocation_counter.val + 1⟩
            allocation_list := vm.allocation_list ++ [alc] } := by
        cases vmA
        simp_all
      have hwfA : vmA.WF := by
        rw [hvmA]
        exact WF_append_allocation hwf (halch.trans hh0)
      simp only at heq2
      cases hfind : vmA.find_allocation_by_handle h0 with
      | ok ia =>
        obtain ⟨i, a⟩ := ia
        rw [hfind] at heq2
        simp only [Prod.mk.injEq] at heq2
        obtain ⟨_, hvmx⟩ := heq2
        rw [← hvmx]
        exact WF_set_allocation_same_handle hwfA (find_allocation_ok_getElem hfind).1 rfl
      | error e =>
        rw [hfind] at heq2
        simp only [Prod.mk.injEq] at heq2
        obtain ⟨_, hvmx⟩ := heq2
        rw [← hvmx]
        exact hwfA
    cases res with
    | ok x =>
      simp only [Prod.mk.injEq] at heq
      obtain ⟨h1, _, _⟩ := heq
      subst h1
      exact hwfx
    | error e =>
      simp only [Prod.mk.injEq] at heq
      obtain ⟨h1, _, _⟩ := heq
      subst h1
      exact hwfx
  | deallocate hd =>
    simp only [execOp, Option.some_inj, Prod.mk.injEq] at h
    obtain ⟨h1, _, _⟩ := h
    subst h1
    rcases deallocate_result_shape vm hd with hs | ⟨i, hs⟩
    · rw [hs]; exact hwf
    · rw [hs]; exact WF_erase_allocation hwf i
  | map hd addr perm ret =>
    simp only [execOp, Option.some_inj, Prod.mk.injEq] at h
    obtain ⟨h1, _, _⟩ := h
    subst h1
    rcases map_result_shape vm hd addr perm ret with hs | ⟨rec, hrech, hs⟩
    · rw [hs]; exact hwf
    · rw [hs]; exact WF_append_mapping hwf hrech
  | unmap hd ret =>
    simp only [execOp, Option.some_inj, Prod.mk.injEq] at h
    obtain ⟨h1, _, _⟩ := h
    subst h1
    rcases unmap_result_shape vm hd ret with hs | ⟨i, hs⟩
    · rw [hs]; exact hwf
    · rw [hs]; exact WF_erase_mapping hwf i
  | reprotect hd perm ret =>
    simp only [execOp, Option.some_inj, Prod.mk.injEq] at h
    obtain ⟨h1, _, _⟩ := h
    subst h1
    rcases reprotect_result_shape vm hd perm ret with hs | ⟨i, m, hget, hs⟩
    · rw [hs]; exact hwf
    · rw [hs]; exact WF_set_mapping_same_handle hwf hget rfl

theorem execOps_WF {ops : List TrackerOp} :
    ∀ {vm vm2 : VirtualMachine} {as ms : List Nat},
      vm.WF → execOps vm ops = some (vm2, as, ms) → vm2.WF := by
  induction ops with
  | nil =>
    intro vm vm2 as ms hwf h
    simp only [execOps, Option.some_inj, Prod.mk.injEq] at h
    obtain ⟨h1, _, _⟩ := h
    subst h1
    exact hwf
  | cons op ops ih =>
    intro vm vm2 as ms hwf h
    simp only [execOps] at h
    obtain ⟨⟨vmA, asA, msA⟩, hop, hrest⟩ := Option.bind_eq_some.mp h
    obtain ⟨⟨vmB, asB, msB⟩, hops, heq⟩ := Option.map_eq_some'.mp hrest
    simp only [Prod.mk.injEq] at heq
    obtain ⟨h1, _, _⟩ := heq
    subst h1
    exact ih (execOp_WF hwf hop) hops

/-- Every tracker state reachable from the fresh tracker is well-formed:
recorded handles are counter-dominated and duplicate-free.  This backs
the well-formedness hypotheses of the deallocate and map/unmap claims. -/
theorem reachable_WF {ops : List TrackerOp} {vm2 : VirtualMachine} {as ms : List Nat}
    (h : execOps VirtualMachine.initial ops = some (vm2, as, ms)) : vm2.WF :=
  execOps_WF WF_initial h
